import Mathlib

/-!
# ImageOrGifOverlayWIN10: transform, cache, scheduler and drag mapping

A shallow embedding of `ImageOrGifOverlayWIN10.cpp` and the properties of its transform
model, render cache, animation loop, drag mapping and image loading.

Modelling conventions:

* C++ `float` is IEEE-754 binary32.  A finite float is represented by the rational it
  denotes, and every arithmetic operation is the exact rational operation followed by
  `f32`, round-to-nearest-even onto the 24-bit significand grid (subnormals included).
  Overflow to infinity is not represented: the model agrees with the hardware whenever the
  rounded result is below `2^128`, which all quantities of this program are.  The two
  signed zeros are one value; the program never divides by zero nor inspects its sign.
* `std::cos` and `std::sin` belong to the C runtime, not to this repository; they are a
  parameter (`Libm`) of which only `cos 0 = 1` and `sin 0 = 0` are fixed.  Theorems that
  need more about them say so in their hypotheses.
* `static_cast<int>` of a float truncates toward zero; `int` and `LONG` coordinates are
  mathematical integers (screen coordinates stay far from the 32-bit limits), while the
  `long` product of the frame delay, where overflow is within reach of the input, wraps
  modulo `2^32`.
* Pointers are `Option`s.  GDI bitmap handles are natural numbers handed out by a counter,
  and GDI and GDI+ calls succeed, as the program assumes by ignoring their status.
* What the platform keeps behind the window handle (the window rectangle, the frames
  pushed to the layered window) is carried in the state record.
* Handlers and the body of the animation loop are atomic steps on the state: the render
  mutex serialises the compositor, and interleavings of the two threads inside a handler
  or inside a pass of the loop are not represented.  The order in which the loop starts
  (line 256) and the loader stores the image (line 288) is represented: `animationRace`
  lets any number of passes run before the image is installed.
-/

namespace Overlay

/-! ## Single-precision arithmetic -/

/-- Round a rational to the nearest integer, ties to the even neighbour. -/
def rne (t : ℚ) : ℤ :=
  let f := ⌊t⌋
  let r := t - f
  if r < 1 / 2 then f
  else if 1 / 2 < r then f + 1
  else if f % 2 = 0 then f else f + 1

/-- Binary logarithm rounded down, by repeated halving (`fuel` bounds the number of steps). -/
def log2Fuel : ℕ → ℕ → ℕ
  | 0, _ => 0
  | fuel + 1, n => if n < 2 then 0 else log2Fuel fuel (n / 2) + 1

/-- The binade of a nonzero rational: the integer `e` with `2^e ≤ |x| < 2^(e+1)`. -/
def expo (x : ℚ) : ℤ :=
  let a : ℤ := log2Fuel x.num.natAbs x.num.natAbs
  let b : ℤ := log2Fuel x.den x.den
  if (2 : ℚ) ^ (a - b) ≤ |x| then a - b else a - b - 1

/-- Spacing of the binary32 grid around `x`: `2^(e-23)` in binade `e`, and the subnormal
spacing `2^(-149)` below `2^(-126)`. -/
def ulp (x : ℚ) : ℚ := (2 : ℚ) ^ (max (expo x) (-126) - 23)

/-- Rounding of an exact result to binary32, round-to-nearest-even. -/
def f32 (x : ℚ) : ℚ :=
  if x = 0 then 0 else (rne (x / ulp x) : ℚ) * ulp x

/-- Float addition. -/
def fadd (a b : ℚ) : ℚ := f32 (a + b)

/-- Float subtraction. -/
def fsub (a b : ℚ) : ℚ := f32 (a - b)

/-- Float multiplication. -/
def fmul (a b : ℚ) : ℚ := f32 (a * b)

/-- Float division. -/
def fdiv (a b : ℚ) : ℚ := f32 (a / b)

/-- Conversion of an `int` to `float`. -/
def ofInt (n : ℤ) : ℚ := f32 n

/-- The conversion `static_cast<int>(float)`: truncation toward zero. -/
def toInt (x : ℚ) : ℤ := if 0 ≤ x then ⌊x⌋ else ⌈x⌉

/-- C `fmod`: the remainder `x - n*y` with `n` the quotient truncated toward zero.  It
has the sign of `x` and is computed without rounding error. -/
def fmodf (x y : ℚ) : ℚ := x - y * (toInt (x / y) : ℚ)

/-- The literal `3.14159265f`. -/
def PI_F : ℚ := f32 (314159265 / 100000000)

/-- The part of the C runtime the program calls: cosine and sine.  Only their values at
zero are fixed (Annex F of the C standard).  The program receives each result as a `float`,
so every call site reads `f32 (M.cosf r)`. -/
structure Libm where
  cosf : ℚ → ℚ
  sinf : ℚ → ℚ
  cosf_zero : cosf 0 = 1
  sinf_zero : sinf 0 = 0

/-- Partial sum of the cosine series. -/
def cosSeries (x : ℚ) : ℚ :=
  (List.range 16).foldl (fun acc k => acc + (-1) ^ k * x ^ (2 * k) / ((2 * k).factorial : ℚ)) 0

/-- Partial sum of the sine series. -/
def sinSeries (x : ℚ) : ℚ :=
  (List.range 16).foldl
    (fun acc k => acc + (-1) ^ k * x ^ (2 * k + 1) / ((2 * k + 1).factorial : ℚ)) 0

/-- A runnable instance of the runtime library: the partial sums of the two series.  It
is used to execute the model on concrete inputs. -/
def refLibm : Libm where
  cosf := cosSeries
  sinf := sinSeries
  cosf_zero := by decide!
  sinf_zero := by decide!

/-- The conversion `angleDeg * 3.14159265f / 180.0f` of lines 68, 88 and 442. -/
def toRadians (angleDeg : ℚ) : ℚ := fdiv (fmul angleDeg PI_F) 180

/-! ## Data model -/

/-- Win32 `POINT`. -/
structure POINT where
  x : ℤ
  y : ℤ
  deriving DecidableEq, Repr

/-- Win32 `SIZE`. -/
structure SIZE where
  cx : ℤ
  cy : ℤ
  deriving DecidableEq, Repr

/-- GDI+ `PointF`. -/
structure PointF where
  X : ℚ
  Y : ℚ
  deriving DecidableEq, Repr

/-! ## Transform model -/

/-- `CalculateRotatedSize`, lines 67-79. -/
def CalculateRotatedSize (M : Libm) (width height : ℤ) (angleDeg scale : ℚ) : SIZE :=
  let radians := toRadians angleDeg
  let cosA := |f32 (M.cosf radians)|
  let sinA := |f32 (M.sinf radians)|
  let scaledWidth := toInt (fmul (ofInt width) scale)
  let scaledHeight := toInt (fmul (ofInt height) scale)
  { cx := toInt (fadd (fmul (ofInt scaledWidth) cosA) (fmul (ofInt scaledHeight) sinA))
    cy := toInt (fadd (fmul (ofInt scaledWidth) sinA) (fmul (ofInt scaledHeight) cosA)) }

/-- `TransformPoint`, lines 81-96. -/
def TransformPoint (M : Libm) (pt : POINT) (angleDeg scale : ℚ) (imgWidth imgHeight : ℤ) :
    PointF :=
  let centerX := fdiv (ofInt imgWidth) 2
  let centerY := fdiv (ofInt imgHeight) 2
  let x := fsub (ofInt pt.x) centerX
  let y := fsub (ofInt pt.y) centerY
  let radians := toRadians angleDeg
  let cosA := f32 (M.cosf radians)
  let sinA := f32 (M.sinf radians)
  { X := fsub (fmul (fmul x scale) cosA) (fmul (fmul y scale) sinA)
    Y := fadd (fmul (fmul x scale) sinA) (fmul (fmul y scale) cosA) }

/-- The inverse mapping of the `WM_RBUTTONDOWN` handler, lines 442-450: the canvas-centred
point `(x, y)` is rotated by `-rotation`, divided by `scale`, moved by the image centre and
truncated to integer image coordinates. -/
def inverseTransformPoint (M : Libm) (x y : ℚ) (rotation scale : ℚ) (imgWidth imgHeight : ℤ) :
    POINT :=
  let radians := toRadians (-rotation)
  let cosA := f32 (M.cosf radians)
  let sinA := f32 (M.sinf radians)
  let rx := fdiv (fsub (fmul x cosA) (fmul y sinA)) scale
  let ry := fdiv (fadd (fmul x sinA) (fmul y cosA)) scale
  { x := toInt (fadd rx (fdiv (ofInt imgWidth) 2))
    y := toInt (fadd ry (fdiv (ofInt imgHeight) 2)) }

/-! ## Application state -/

/-- A GDI+ `Bitmap` as far as the program queries it: its size, the answers of the
frame-dimension and frame-delay queries, and the frame selected by `SelectActiveFrame`. -/
structure Bitmap where
  width : ℕ
  height : ℕ
  frameDimensionsCount : ℕ
  frameCount : ℕ
  frameDelaySize : ℕ
  frameDelay : Option (List ℤ)
  activeFrame : ℕ
  deriving DecidableEq, Repr

/-- A GDI bitmap handle together with the frame that was drawn into it. -/
structure HBITMAP where
  handle : ℕ
  frame : ℕ
  deriving DecidableEq, Repr

/-- `struct AppState`, lines 20-53, followed by the platform state the program reaches
through `hwnd` and GDI: the window rectangle, the frames pushed to the layered window, the
next handle GDI hands out and the handles given to `DeleteObject`. -/
structure AppState where
  image : Option Bitmap
  dimensionIDs : Option ℕ
  frameCount : ℕ
  currentFrame : ℕ
  isAnimatedGIF : Bool
  frameDelays : Option (List ℤ)
  animationThread : Bool
  stopAnimation : Bool
  scale : ℚ
  rotation : ℚ
  moveSpeed : ℚ
  cursorPos : POINT
  grabPointImage : POINT
  isDragging : Bool
  wasMoved : Bool
  hCachedBitmap : Option HBITMAP
  cachedSize : SIZE
  cachedScale : ℚ
  cachedRotation : ℚ
  windowPos : POINT
  windowSize : SIZE
  presented : List ℕ
  gdiNext : ℕ
  gdiDeleted : List ℕ
  deriving DecidableEq, Repr

/-- The state built by `new AppState()` in `WM_CREATE` (the member initialisers of lines
20-53) in the 800x600 window made by `CreateWindowEx`. -/
def newAppState : AppState where
  image := none
  dimensionIDs := none
  frameCount := 0
  currentFrame := 0
  isAnimatedGIF := false
  frameDelays := none
  animationThread := false
  stopAnimation := false
  scale := 1
  rotation := 0
  moveSpeed := 1
  cursorPos := ⟨0, 0⟩
  grabPointImage := ⟨0, 0⟩
  isDragging := false
  wasMoved := false
  hCachedBitmap := none
  cachedSize := ⟨0, 0⟩
  cachedScale := 0
  cachedRotation := 0
  windowPos := ⟨0, 0⟩
  windowSize := ⟨800, 600⟩
  presented := []
  gdiNext := 1
  gdiDeleted := []

/-! ## Compositor and render cache -/

/-- `CleanupCachedBitmap`, lines 190-195. -/
def CleanupCachedBitmap (state : AppState) : AppState :=
  match state.hCachedBitmap with
  | some h => { state with gdiDeleted := h.handle :: state.gdiDeleted, hCachedBitmap := none }
  | none => state

/-- The cache test of `UpdateLayeredWindowContent`, lines 108-112. -/
def cacheHit (state : AppState) (forceUpdate : Bool) (canvasSize : SIZE) : Bool :=
  state.hCachedBitmap.isSome && !forceUpdate &&
    decide (state.cachedScale = state.scale) &&
    decide (state.cachedRotation = state.rotation) &&
    decide (state.cachedSize.cx = canvasSize.cx) &&
    decide (state.cachedSize.cy = canvasSize.cy)

/-- `UpdateLayeredWindowContent`, lines 98-156.  On a miss the old handle is deleted and
`GetHBITMAP` stores a new handle holding the active frame; then the cached bitmap is pushed
to the layered window with the canvas size. -/
def UpdateLayeredWindowContent (M : Libm) (state : AppState) (forceUpdate : Bool) : AppState :=
  match state.image with
  | none => state
  | some image =>
    let canvasSize := CalculateRotatedSize M image.width image.height state.rotation state.scale
    let s1 :=
      if cacheHit state forceUpdate canvasSize then state
      else
        let s0 := CleanupCachedBitmap state
        { s0 with
          hCachedBitmap := some ⟨s0.gdiNext, image.activeFrame⟩
          gdiNext := s0.gdiNext + 1
          cachedScale := s0.scale
          cachedRotation := s0.rotation
          cachedSize := canvasSize }
    { s1 with
      windowSize := canvasSize
      presented :=
        match s1.hCachedBitmap with
        | some h => s1.presented ++ [h.frame]
        | none => s1.presented }

/-! ## Drag mapper -/

/-- `AdjustWindowPosition`, lines 158-188; `cursor` is what `GetCursorPos` returns. -/
def AdjustWindowPosition (M : Libm) (state : AppState) (cursor : POINT) : AppState :=
  if !state.isDragging then state
  else
    match state.image with
    | none => state
    | some image =>
      let imgWidth : ℤ := image.width
      let imgHeight : ℤ := image.height
      let transformed :=
        TransformPoint M state.grabPointImage state.rotation state.scale imgWidth imgHeight
      let rotatedSize := CalculateRotatedSize M imgWidth imgHeight state.rotation state.scale
      let newX := cursor.x -
        toInt (fmul (fadd (fdiv (ofInt rotatedSize.cx) 2) transformed.X) state.moveSpeed)
      let newY := cursor.y -
        toInt (fmul (fadd (fdiv (ofInt rotatedSize.cy) 2) transformed.Y) state.moveSpeed)
      { state with cursorPos := cursor, windowPos := ⟨newX, newY⟩, windowSize := rotatedSize }

/-- The `WM_RBUTTONDOWN` handler, lines 414-454.  It dereferences `state->image`, so it
yields `none` when no image is loaded. -/
def onRButtonDown (M : Libm) (state : AppState) (cursor : POINT) : Option AppState :=
  match state.image with
  | none => none
  | some image =>
    let localX := cursor.x - state.windowPos.x
    let localY := cursor.y - state.windowPos.y
    let rotated := CalculateRotatedSize M image.width image.height state.rotation state.scale
    let centerX := fdiv (ofInt rotated.cx) 2
    let centerY := fdiv (ofInt rotated.cy) 2
    let x := fsub (ofInt localX) centerX
    let y := fsub (ofInt localY) centerY
    let grab := inverseTransformPoint M x y state.rotation state.scale image.width image.height
    some (AdjustWindowPosition M
      { state with isDragging := true, wasMoved := false, cursorPos := cursor,
                   grabPointImage := grab } cursor)

/-- The `WM_RBUTTONUP` handler, lines 456-462. -/
def onRButtonUp (state : AppState) : AppState :=
  { state with isDragging := false, wasMoved := false }

/-- The `WM_MOUSEMOVE` handler, lines 464-469. -/
def onMouseMove (M : Libm) (state : AppState) (cursor : POINT) : AppState :=
  if state.isDragging then AdjustWindowPosition M { state with wasMoved := true } cursor
  else state

/-! ## Wheel handler -/

/-- One `WM_MOUSEWHEEL` message: the wheel delta, the three modifier keys and the cursor
position read by `AdjustWindowPosition`. -/
structure WheelEvent where
  delta : ℤ
  ctrlPressed : Bool
  altPressed : Bool
  shiftPressed : Bool
  cursor : POINT
  deriving DecidableEq, Repr

/-- The compound assignments (`+=`) of the `WM_MOUSEWHEEL` handler, lines 480, 484, 488
and 492: the value before clamping. -/
def wheelStep (state : AppState) (e : WheelEvent) : AppState :=
  if e.shiftPressed then
    { state with
      moveSpeed := fadd state.moveSpeed (if e.delta > 0 then f32 (1 / 10) else -f32 (1 / 10)) }
  else if e.ctrlPressed then
    { state with
      scale := fadd state.scale (if e.delta > 0 then f32 (1 / 100) else -f32 (1 / 100)) }
  else if e.altPressed then
    { state with rotation := fadd state.rotation (if e.delta > 0 then 2 else -2) }
  else
    { state with
      scale := fadd state.scale (if e.delta > 0 then f32 (5 / 100) else -f32 (5 / 100)) }

/-- The clamping and wrapping assignments of the `WM_MOUSEWHEEL` handler, lines 481, 485,
489 and 493. -/
def wheelClamp (state : AppState) (e : WheelEvent) : AppState :=
  if e.shiftPressed then
    { state with moveSpeed := max (f32 (1 / 10)) (min state.moveSpeed 5) }
  else if e.ctrlPressed then
    { state with scale := max (f32 (5 / 100)) (min state.scale 10) }
  else if e.altPressed then
    { state with rotation := fmodf state.rotation 360 }
  else
    { state with scale := max (f32 (5 / 100)) (min state.scale 10) }

/-- The transform update of the `WM_MOUSEWHEEL` handler, lines 479-494. -/
def wheelTransform (state : AppState) (e : WheelEvent) : AppState :=
  wheelClamp (wheelStep state e) e

/-- The `WM_MOUSEWHEEL` handler, lines 471-499. -/
def onMouseWheel (M : Libm) (state : AppState) (e : WheelEvent) : AppState :=
  UpdateLayeredWindowContent M (AdjustWindowPosition M (wheelTransform state e) e.cursor) false

/-- A run of wheel messages. -/
def wheelRun (M : Libm) (state : AppState) (es : List WheelEvent) : AppState :=
  es.foldl (onMouseWheel M) state

/-! ## Animation scheduler -/

/-- A 32-bit `long` result: reduction into `[-2^31, 2^31)`. -/
def wrapLong (x : ℤ) : ℤ := (x + 2 ^ 31) % 2 ^ 32 - 2 ^ 31

/-- The delay computation of lines 269-270 for the raw table entry `raw`. -/
def frameDelayMs (raw : ℤ) : ℤ :=
  let delay := wrapLong (raw * 10)
  max 10 (min delay 1000)

/-- The frame-delay table entry read at line 269, when the index is inside the table. -/
def rawDelay (state : AppState) : Option ℤ :=
  match state.frameDelays with
  | some delays => delays.get? state.currentFrame
  | none => none

/-- The time the animation thread sleeps at line 272. -/
def sleepMs (state : AppState) : Option ℤ := (rawDelay state).map frameDelayMs

/-- What the platform answers for a file path: the stream cannot be opened, the decoder
rejects it, or a bitmap is decoded. -/
inductive FileResult where
  | openFailed
  | decodeFailed
  | decoded (image : Bitmap)
  deriving DecidableEq, Repr

/-- Lines 200-219 of `LoadNewImage`: stop and join the animation thread, release the old
image, the cached bitmap and the frame tables. -/
def releasePrevious (state : AppState) : AppState :=
  let s1 := { state with stopAnimation := true, animationThread := false, image := none }
  let s2 := CleanupCachedBitmap s1
  { s2 with dimensionIDs := none, frameDelays := none }

/-- Lines 235-286 of `LoadNewImage`: frame metadata of the new image and the start of the
animation thread. -/
def installFrames (state : AppState) (newImage : Bitmap) : AppState :=
  let s1 := { state with isAnimatedGIF := false, frameCount := 0, currentFrame := 0 }
  let count := newImage.frameDimensionsCount
  if count > 0 then
    let s2 := { s1 with dimensionIDs := some count, frameCount := newImage.frameCount }
    if s2.frameCount > 1 then
      let s3 := { s2 with isAnimatedGIF := true }
      if newImage.frameDelaySize > 0 then
        match newImage.frameDelay with
        | some delays =>
          { s3 with frameDelays := some delays, stopAnimation := false, animationThread := true }
        | none => { s3 with frameDelays := none, isAnimatedGIF := false }
      else s3
    else s2
  else s1

/-- `LoadNewImage`, lines 197-291; `file` is what the platform answers for `filePath`. -/
def LoadNewImage (M : Libm) (state : AppState) (file : FileResult) : Bool × AppState :=
  let s1 := releasePrevious state
  match file with
  | FileResult.openFailed => (false, s1)
  | FileResult.decodeFailed => (false, s1)
  | FileResult.decoded newImage =>
    let s2 := installFrames s1 newImage
    (true, UpdateLayeredWindowContent M { s2 with image := some newImage } true)

/-- A decoded single-frame 100x100 image. -/
def stillImage : Bitmap := ⟨100, 100, 1, 1, 0, none, 0⟩

/-- A decoded three-frame 100x100 image with raw frame delays 5, 20 and 100. -/
def animatedImage : Bitmap := ⟨100, 100, 1, 3, 12, some [5, 20, 100], 0⟩

/-- The state after `stillImage` has been loaded into a fresh application. -/
def loadedState : AppState :=
  (LoadNewImage refLibm newAppState (FileResult.decoded stillImage)).2

/-- The state after `animatedImage` has been loaded into a fresh application. -/
def animatedState : AppState :=
  (LoadNewImage refLibm newAppState (FileResult.decoded animatedImage)).2

/-- A plain wheel notch toward the user (negative delta, no modifier key). -/
def wheelDown : WheelEvent := ⟨-120, false, false, false, ⟨0, 0⟩⟩

/-- A wheel notch toward the user with Alt held. -/
def wheelDownAlt : WheelEvent := ⟨-120, false, true, false, ⟨0, 0⟩⟩

/-- A wheel notch away from the user with Shift held. -/
def wheelUpShift : WheelEvent := ⟨120, false, false, true, ⟨0, 0⟩⟩

/-- The footprint the specification states for rotation 0: both sides rounded to the
nearest integer. -/
def roundedFootprint (width height : ℤ) (scale : ℚ) : SIZE :=
  ⟨round ((width : ℚ) * scale), round ((height : ℚ) * scale)⟩

/-- The window top-left as C2 states it, in exact arithmetic:
`cursor - moveSpeed * (footprint/2 + R(rotation)*scale*(p - imageCenter))` per axis. -/
def statedTopLeft (M : Libm) (cursor p : POINT) (w h : ℤ) (scale rotation moveSpeed : ℚ) :
    ℚ × ℚ :=
  let foot := CalculateRotatedSize M w h rotation scale
  let c := f32 (M.cosf (toRadians rotation))
  let s := f32 (M.sinf (toRadians rotation))
  let x := (p.x : ℚ) - (w : ℚ) / 2
  let y := (p.y : ℚ) - (h : ℚ) / 2
  ((cursor.x : ℚ) - moveSpeed * ((foot.cx : ℚ) / 2 + scale * (x * c - y * s)),
   (cursor.y : ℚ) - moveSpeed * ((foot.cy : ℚ) / 2 + scale * (x * s + y * c)))

/-- The window top-left as the amended C2 states it: the same formula with every
operation carried out in single precision and the product truncated toward zero before it
is subtracted from the cursor position. -/
def truncatedTopLeft (M : Libm) (cursor p : POINT) (w h : ℤ) (scale rotation moveSpeed : ℚ) :
    POINT :=
  let foot := CalculateRotatedSize M w h rotation scale
  let c := f32 (M.cosf (toRadians rotation))
  let s := f32 (M.sinf (toRadians rotation))
  let x := fsub (ofInt p.x) (fdiv (ofInt w) 2)
  let y := fsub (ofInt p.y) (fdiv (ofInt h) 2)
  let offX := fsub (fmul (fmul x scale) c) (fmul (fmul y scale) s)
  let offY := fadd (fmul (fmul x scale) s) (fmul (fmul y scale) c)
  ⟨cursor.x - toInt (fmul (fadd (fdiv (ofInt foot.cx) 2) offX) moveSpeed),
   cursor.y - toInt (fmul (fadd (fdiv (ofInt foot.cy) 2) offY) moveSpeed)⟩

/-- The state after the right button went down at `(11, 10)` over `loadedState`, whose
window sits at the origin: the drag is active with anchor `(11, 10)`. -/
def grabbedState : AppState :=
  (onRButtonDown refLibm loadedState ⟨11, 10⟩).getD loadedState

/-- The drag of `grabbedState` after one Shift-wheel notch toward the user: the move speed
is `0.9f`, scale and rotation are still 1 and 0. -/
def slowedDrag : AppState :=
  onMouseWheel refLibm grabbedState ⟨-120, false, false, true, ⟨11, 10⟩⟩

/-- A decoded single-frame 1x1 image. -/
def pixelImage : Bitmap := ⟨1, 1, 1, 1, 0, none, 0⟩

/-- A drag in progress on `stillImage` with anchor `(10, 10)`, grabbed at scale 1, now at
scale 2. -/
def zoomedDrag : AppState :=
  { loadedState with isDragging := true, grabPointImage := ⟨10, 10⟩, scale := 2 }

/-- The same drag reached along another path: the window has been moved and recomposited
in between, so the cursor, window and cache fields differ. -/
def zoomedDragLater : AppState :=
  { zoomedDrag with
    wasMoved := true, cursorPos := ⟨77, 88⟩, windowPos := ⟨3, 4⟩, windowSize := ⟨200, 200⟩,
    hCachedBitmap := some ⟨5, 0⟩, cachedScale := 2, cachedSize := ⟨200, 200⟩,
    presented := [0, 0, 0], gdiNext := 6, gdiDeleted := [4, 3, 2, 1] }

/-! ## Facts about the single-precision model -/

/-- `log2Fuel` with enough fuel brackets its argument between consecutive powers of two. -/
theorem log2Fuel_spec (fuel n : ℕ) (hn : 0 < n) (hf : n ≤ fuel) :
    2 ^ log2Fuel fuel n ≤ n ∧ n < 2 ^ (log2Fuel fuel n + 1) := by
  induction fuel generalizing n with
  | zero => omega
  | succ fuel ih =>
    unfold log2Fuel
    split_ifs with h2
    · constructor
      · simpa using hn
      · simpa using h2
    · have hpos : 0 < n / 2 := Nat.div_pos (by omega) (by norm_num)
      have hle : n / 2 ≤ fuel := by omega
      obtain ⟨l, r⟩ := ih (n / 2) hpos hle
      constructor
      · have : 2 ^ (log2Fuel fuel (n / 2) + 1) = 2 * 2 ^ log2Fuel fuel (n / 2) := by ring
        omega
      · have : 2 ^ (log2Fuel fuel (n / 2) + 1 + 1) = 2 * 2 ^ (log2Fuel fuel (n / 2) + 1) := by
          ring
        omega

/-- The binade exponent brackets a nonzero rational: `2^e ≤ |x| < 2^(e+1)`. -/
theorem expo_spec (x : ℚ) (hx : x ≠ 0) :
    (2 : ℚ) ^ expo x ≤ |x| ∧ |x| < (2 : ℚ) ^ (expo x + 1) := by
  have hnum : 0 < x.num.natAbs := Int.natAbs_pos.mpr (Rat.num_ne_zero.mpr hx)
  have hden : 0 < x.den := x.den_pos
  obtain ⟨a1, a2⟩ := log2Fuel_spec x.num.natAbs x.num.natAbs hnum le_rfl
  obtain ⟨b1, b2⟩ := log2Fuel_spec x.den x.den hden le_rfl
  set A := log2Fuel x.num.natAbs x.num.natAbs with hA
  set B := log2Fuel x.den x.den with hB
  have habs : |x| = (x.num.natAbs : ℚ) / (x.den : ℚ) := by
    conv_lhs => rw [← Rat.num_div_den x]
    rw [abs_div, Nat.abs_cast, Nat.cast_natAbs, Int.cast_abs]
  have hd : (0 : ℚ) < x.den := by exact_mod_cast hden
  have a1q : (2 : ℚ) ^ A ≤ (x.num.natAbs : ℚ) := by exact_mod_cast a1
  have a2q : (x.num.natAbs : ℚ) < (2 : ℚ) ^ (A + 1) := by exact_mod_cast a2
  have b1q : (2 : ℚ) ^ B ≤ (x.den : ℚ) := by exact_mod_cast b1
  have b2q : (x.den : ℚ) < (2 : ℚ) ^ (B + 1) := by exact_mod_cast b2
  have two : (2 : ℚ) ≠ 0 := by norm_num
  have pA : (0 : ℚ) < 2 ^ A := by positivity
  have pB : (0 : ℚ) < 2 ^ B := by positivity
  have zA : (2 : ℚ) ^ ((A : ℤ) - (B : ℤ)) = 2 ^ A / 2 ^ B := by
    rw [zpow_sub₀ two, zpow_natCast, zpow_natCast]
  have hexp : expo x = if (2 : ℚ) ^ ((A : ℤ) - (B : ℤ)) ≤ |x| then (A : ℤ) - B
      else (A : ℤ) - B - 1 := rfl
  rw [hexp]
  split_ifs with hc
  · refine ⟨hc, ?_⟩
    rw [zpow_add_one₀ two, zA, habs, div_lt_iff₀ hd]
    have : (2 : ℚ) ^ A / 2 ^ B * 2 * (x.den : ℚ) = 2 ^ (A + 1) * ((x.den : ℚ) / 2 ^ B) := by
      field_simp
      ring
    rw [this]
    have h1 : (1 : ℚ) ≤ (x.den : ℚ) / 2 ^ B := by
      rw [le_div_iff₀ pB]
      linarith
    nlinarith [pow_pos (show (0:ℚ) < 2 by norm_num) (A + 1)]
  · push_neg at hc
    constructor
    · have e : (A : ℤ) - B - 1 = (A : ℤ) - (B + 1 : ℕ) := by push_cast; ring
      rw [e, zpow_sub₀ two, zpow_natCast, zpow_natCast, habs]
      rw [div_le_div_iff₀ (by positivity) hd]
      have := pow_pos (show (0:ℚ) < 2 by norm_num) (B + 1)
      nlinarith
    · have e : (A : ℤ) - B - 1 + 1 = (A : ℤ) - B := by ring
      rw [e]
      exact hc

/-- The grid spacing is a positive power of two. -/
theorem ulp_pos (x : ℚ) : 0 < ulp x := by
  unfold ulp
  positivity

/-- Rounding an integer returns it. -/
theorem rne_intCast (n : ℤ) : rne (n : ℚ) = n := by
  unfold rne
  simp

/-- The rounded value is the floor or the floor plus one. -/
theorem rne_floor_cases (t : ℚ) : rne t = ⌊t⌋ ∨ rne t = ⌊t⌋ + 1 := by
  unfold rne
  simp only
  split_ifs <;> simp

/-- Round-to-nearest moves its argument by at most one half. -/
theorem rne_err (t : ℚ) : |(rne t : ℚ) - t| ≤ 1 / 2 := by
  have h1 := Int.floor_le t
  have h2 := Int.lt_floor_add_one t
  unfold rne
  simp only
  rw [abs_le]
  split_ifs with a b c
  · constructor <;> linarith
  · push_cast
    constructor <;> linarith
  · constructor <;> linarith
  · push_cast
    constructor <;> linarith

/-- Round-to-nearest-even is monotone. -/
theorem rne_mono {s t : ℚ} (h : s ≤ t) : rne s ≤ rne t := by
  have hfl : ⌊s⌋ ≤ ⌊t⌋ := Int.floor_mono h
  rcases hfl.lt_or_eq with hlt | heq
  · rcases rne_floor_cases s with hs | hs <;> rcases rne_floor_cases t with ht | ht <;> omega
  · unfold rne
    simp only
    rw [heq]
    have hr : s - (⌊t⌋ : ℚ) ≤ t - (⌊t⌋ : ℚ) := by linarith
    split_ifs <;> first | omega | (exfalso; linarith)

/-- Round-to-nearest-even commutes with negation. -/
theorem rne_neg (t : ℚ) : rne (-t) = -rne t := by
  by_cases hint : (⌊t⌋ : ℚ) = t
  · rw [← hint, ← Int.cast_neg, rne_intCast, rne_intCast]
  · have h1 := Int.floor_le t
    have h2 := Int.lt_floor_add_one t
    have hlt : (⌊t⌋ : ℚ) < t := lt_of_le_of_ne h1 hint
    have hfn : ⌊-t⌋ = -⌊t⌋ - 1 := by
      rw [Int.floor_eq_iff]
      push_cast
      constructor <;> linarith
    unfold rne
    simp only
    rw [hfn]
    push_cast
    split_ifs <;> first | omega | (exfalso; linarith)

/-- The model rounds zero to zero. -/
theorem f32_zero : f32 0 = 0 := by
  simp [f32]

/-- The value of `f32` away from zero. -/
theorem f32_of_ne_zero {x : ℚ} (hx : x ≠ 0) : f32 x = (rne (x / ulp x) : ℚ) * ulp x := by
  simp [f32, hx]

/-- Rounding to single precision moves a value by at most half the grid spacing. -/
theorem f32_err (x : ℚ) (hx : x ≠ 0) : |f32 x - x| ≤ ulp x / 2 := by
  have hq := ulp_pos x
  rw [f32_of_ne_zero hx]
  have h := rne_err (x / ulp x)
  have e : (rne (x / ulp x) : ℚ) * ulp x - x = ((rne (x / ulp x) : ℚ) - x / ulp x) * ulp x := by
    field_simp
  rw [e, abs_mul, abs_of_pos hq]
  calc |(rne (x / ulp x) : ℚ) - x / ulp x| * ulp x ≤ 1 / 2 * ulp x :=
        mul_le_mul_of_nonneg_right h hq.le
    _ = ulp x / 2 := by ring

/-- The grid spacing is at most `2^(-23)` times the magnitude, or the subnormal spacing. -/
theorem ulp_le (x : ℚ) (hx : x ≠ 0) : ulp x ≤ |x| * (2 : ℚ) ^ (-23 : ℤ) + (2 : ℚ) ^ (-149 : ℤ) := by
  obtain ⟨h1, _⟩ := expo_spec x hx
  have two : (2 : ℚ) ≠ 0 := by norm_num
  unfold ulp
  rcases le_total (expo x) (-126) with h | h
  · rw [max_eq_right h]
    have : (0 : ℚ) ≤ |x| * (2 : ℚ) ^ (-23 : ℤ) := by positivity
    have e : ((-126 : ℤ) - 23) = -149 := by norm_num
    rw [e]
    linarith
  · rw [max_eq_left h]
    have e : expo x - 23 = expo x + (-23) := by ring
    rw [e, zpow_add₀ two]
    have p : (0 : ℚ) < (2 : ℚ) ^ (-23 : ℤ) := by positivity
    have q : (0 : ℚ) < (2 : ℚ) ^ (-149 : ℤ) := by positivity
    nlinarith

/-- Relative form of the rounding error, valid for every argument. -/
theorem f32_err_rel (x : ℚ) :
    |f32 x - x| ≤ |x| * (2 : ℚ) ^ (-24 : ℤ) + (2 : ℚ) ^ (-150 : ℤ) := by
  by_cases hx : x = 0
  · subst hx
    rw [f32_zero]
    simp
    positivity
  · have h1 := f32_err x hx
    have h2 := ulp_le x hx
    have e1 : |x| * (2 : ℚ) ^ (-24 : ℤ) = |x| * (2 : ℚ) ^ (-23 : ℤ) / 2 := by
      rw [mul_div_assoc]
      norm_num
    have e2 : (2 : ℚ) ^ (-150 : ℤ) = (2 : ℚ) ^ (-149 : ℤ) / 2 := by norm_num
    rw [e1, e2]
    generalize (2 : ℚ) ^ (-23 : ℤ) = p at h2 ⊢
    generalize (2 : ℚ) ^ (-149 : ℤ) = q at h2 ⊢
    linarith

/-- Rounding commutes with negation. -/
theorem f32_neg (x : ℚ) : f32 (-x) = -f32 x := by
  by_cases hx : x = 0
  · subst hx
    simp [f32_zero]
  · have hx' : -x ≠ 0 := neg_ne_zero.mpr hx
    have hu : ulp (-x) = ulp x := by
      unfold ulp expo
      simp [Rat.neg_num, Rat.neg_den]
    rw [f32_of_ne_zero hx, f32_of_ne_zero hx', hu, neg_div, rne_neg]
    push_cast
    ring

/-- A value `m * 2^k` whose spacing `2^k` is a multiple of the grid spacing is a float. -/
theorem f32_of_grid (x : ℚ) (m k : ℤ) (hx : x = (m : ℚ) * (2 : ℚ) ^ k)
    (hk : max (expo x) (-126) - 23 ≤ k) : f32 x = x := by
  by_cases h0 : x = 0
  · rw [h0, f32_zero]
  · have two : (2 : ℚ) ≠ 0 := by norm_num
    have hn : (0 : ℤ) ≤ k - (max (expo x) (-126) - 23) := by omega
    obtain ⟨n, hn'⟩ := Int.eq_ofNat_of_zero_le hn
    have hdiv : x / ulp x = ((m * 2 ^ n : ℤ) : ℚ) := by
      unfold ulp
      rw [hx] at hk ⊢
      rw [mul_div_assoc, ← zpow_sub₀ two]
      rw [hx] at hn'
      rw [hn', zpow_natCast]
      push_cast
      ring
    rw [f32_of_ne_zero h0, hdiv, rne_intCast]
    have hu : ulp x = (2 : ℚ) ^ (k - n) := by
      unfold ulp
      congr 1
      omega
    rw [hu, zpow_sub₀ two, zpow_natCast, hx]
    push_cast
    field_simp
    ring

/-- Every `m * 2^k` with `|m| < 2^24` and `k ≥ -149` is a float. -/
theorem f32_repr (m k : ℤ) (hm : |m| < 2 ^ 24) (hk : -149 ≤ k) :
    f32 ((m : ℚ) * (2 : ℚ) ^ k) = (m : ℚ) * (2 : ℚ) ^ k := by
  by_cases h0 : (m : ℚ) * (2 : ℚ) ^ k = 0
  · rw [h0, f32_zero]
  · apply f32_of_grid _ m k rfl
    obtain ⟨h1, _⟩ := expo_spec _ h0
    have hp : (0 : ℚ) < (2 : ℚ) ^ k := by positivity
    have hmq : (|m| : ℚ) < 2 ^ 24 := by exact_mod_cast hm
    have hlt : (2 : ℚ) ^ expo ((m : ℚ) * (2 : ℚ) ^ k) < (2 : ℚ) ^ (24 + k) := by
      rw [abs_mul, abs_of_pos hp] at h1
      have : (2 : ℚ) ^ (24 + k) = 2 ^ 24 * 2 ^ k := by
        rw [zpow_add₀ (by norm_num : (2 : ℚ) ≠ 0)]
        norm_num
      rw [this]
      calc (2 : ℚ) ^ expo ((m : ℚ) * (2 : ℚ) ^ k) ≤ |(m : ℚ)| * 2 ^ k := h1
        _ < 2 ^ 24 * 2 ^ k := mul_lt_mul_of_pos_right hmq hp
    have he := (zpow_lt_zpow_iff_right₀ (by norm_num : (1 : ℚ) < 2)).mp hlt
    exact sub_le_iff_le_add.mpr (max_le (by omega) (by omega))

/-- Integers below `2^24` in magnitude are floats. -/
theorem f32_intCast (n : ℤ) (hn : |n| < 2 ^ 24) : f32 (n : ℚ) = n := by
  have h := f32_repr n 0 hn (by norm_num)
  simpa using h

/-- The magnitude of the rounded significand is at most `2^24`. -/
theorem rne_div_ulp_abs_le (x : ℚ) (hx : x ≠ 0) : |rne (x / ulp x)| ≤ 2 ^ 24 := by
  obtain ⟨_, h2⟩ := expo_spec x hx
  have two : (2 : ℚ) ≠ 0 := by norm_num
  have hq := ulp_pos x
  have hle : (2 : ℚ) ^ (expo x + 1) ≤ 2 ^ 24 * ulp x := by
    unfold ulp
    have e : (2 : ℚ) ^ (24 : ℕ) = (2 : ℚ) ^ (24 : ℤ) := by norm_num
    rw [e, ← zpow_add₀ two]
    apply zpow_le_zpow_right₀ (by norm_num)
    have := le_max_left (expo x) (-126)
    omega
  have hb : |x / ulp x| ≤ 2 ^ 24 := by
    rw [abs_div, abs_of_pos hq, div_le_iff₀ hq]
    linarith
  obtain ⟨l, r⟩ := abs_le.mp hb
  have l' : rne ((-(2 ^ 24 : ℤ) : ℤ) : ℚ) ≤ rne (x / ulp x) := rne_mono (by push_cast; linarith)
  have r' : rne (x / ulp x) ≤ rne (((2 ^ 24 : ℤ) : ℤ) : ℚ) := rne_mono (by push_cast; linarith)
  rw [rne_intCast] at l' r'
  exact abs_le.mpr ⟨l', r'⟩

/-- Every rounded value lies on the single-precision grid. -/
theorem f32_on_grid (x : ℚ) :
    ∃ m k : ℤ, |m| ≤ 2 ^ 24 ∧ -149 ≤ k ∧ f32 x = (m : ℚ) * (2 : ℚ) ^ k := by
  by_cases hx : x = 0
  · exact ⟨0, 0, by norm_num, by norm_num, by simp [hx, f32_zero]⟩
  · refine ⟨rne (x / ulp x), max (expo x) (-126) - 23, rne_div_ulp_abs_le x hx, ?_, ?_⟩
    · have := le_max_right (expo x) (-126)
      omega
    · rw [f32_of_ne_zero hx]
      rfl

/-- Every grid value `m * 2^k` with `|m| ≤ 2^24` and `k ≥ -149` is a float. -/
theorem f32_repr_le (m k : ℤ) (hm : |m| ≤ 2 ^ 24) (hk : -149 ≤ k) :
    f32 ((m : ℚ) * (2 : ℚ) ^ k) = (m : ℚ) * (2 : ℚ) ^ k := by
  rcases hm.lt_or_eq with h | h
  · exact f32_repr m k h hk
  · have two : (2 : ℚ) ≠ 0 := by norm_num
    have hm' : m = 2 ^ 24 ∨ m = -2 ^ 24 := by
      rcases abs_cases m with ⟨h1, _⟩ | ⟨h1, _⟩ <;> [left; right] <;> omega
    have key : (m : ℚ) * (2 : ℚ) ^ k = ((m / 2 : ℤ) : ℚ) * (2 : ℚ) ^ (k + 1) := by
      rw [zpow_add_one₀ two]
      rcases hm' with h1 | h1 <;> subst h1 <;> norm_num <;> ring
    rw [key]
    apply f32_repr _ _ _ (by omega)
    rcases hm' with h1 | h1 <;> subst h1 <;> norm_num

/-- Rounding is idempotent. -/
theorem f32_idem (x : ℚ) : f32 (f32 x) = f32 x := by
  obtain ⟨m, k, hm, hk, h⟩ := f32_on_grid x
  rw [h]
  exact f32_repr_le m k hm hk

/-- Rounding keeps nonnegative values nonnegative. -/
theorem f32_nonneg {x : ℚ} (hx : 0 ≤ x) : 0 ≤ f32 x := by
  by_cases h0 : x = 0
  · rw [h0, f32_zero]
  · rw [f32_of_ne_zero h0]
    have hq := ulp_pos x
    have h : rne ((0 : ℤ) : ℚ) ≤ rne (x / ulp x) := rne_mono (by push_cast; positivity)
    rw [rne_intCast] at h
    have : (0 : ℚ) ≤ (rne (x / ulp x) : ℚ) := by exact_mod_cast h
    positivity

/-- A positive value rounds to something between the ends of its binade. -/
theorem f32_binade {x : ℚ} (hx : 0 < x) :
    (expo x ≥ -126 → (2 : ℚ) ^ expo x ≤ f32 x) ∧
    f32 x ≤ (2 : ℚ) ^ (max (expo x) (-126) + 1) := by
  have hne : x ≠ 0 := hx.ne'
  have two : (2 : ℚ) ≠ 0 := by norm_num
  have hq := ulp_pos x
  obtain ⟨h1, h2⟩ := expo_spec x hne
  rw [abs_of_pos hx] at h1 h2
  rw [f32_of_ne_zero hne]
  constructor
  · intro he
    have hu : ulp x = (2 : ℚ) ^ (expo x - 23) := by
      unfold ulp
      rw [max_eq_left he]
    have hge : ((2 ^ 23 : ℤ) : ℚ) ≤ x / ulp x := by
      rw [le_div_iff₀ hq, hu]
      have : ((2 ^ 23 : ℤ) : ℚ) * (2 : ℚ) ^ (expo x - 23) = (2 : ℚ) ^ expo x := by
        rw [zpow_sub₀ two]
        norm_num
        ring
      rw [this]
      exact h1
    have hr := rne_mono hge
    rw [rne_intCast] at hr
    have hr' : ((2 ^ 23 : ℤ) : ℚ) ≤ (rne (x / ulp x) : ℚ) := by exact_mod_cast hr
    have e : (2 : ℚ) ^ expo x = ((2 ^ 23 : ℤ) : ℚ) * ulp x := by
      rw [hu, zpow_sub₀ two]
      norm_num
      ring
    rw [e]
    exact mul_le_mul_of_nonneg_right hr' hq.le
  · have hr := (abs_le.mp (rne_div_ulp_abs_le x hne)).2
    have hr' : (rne (x / ulp x) : ℚ) ≤ ((2 ^ 24 : ℤ) : ℚ) := by exact_mod_cast hr
    have e : (2 : ℚ) ^ (max (expo x) (-126) + 1) = ((2 ^ 24 : ℤ) : ℚ) * ulp x := by
      unfold ulp
      rw [zpow_sub₀ two, zpow_add_one₀ two]
      norm_num
      ring
    rw [e]
    exact mul_le_mul_of_nonneg_right hr' hq.le

/-- Rounding is monotone on nonnegative values. -/
theorem f32_mono_nonneg {x y : ℚ} (hx : 0 ≤ x) (hxy : x ≤ y) : f32 x ≤ f32 y := by
  rcases hx.lt_or_eq with hpos | hzero
  · have hy : 0 < y := lt_of_lt_of_le hpos hxy
    have one : (1 : ℚ) < 2 := by norm_num
    obtain ⟨x1, x2⟩ := expo_spec x hpos.ne'
    obtain ⟨y1, y2⟩ := expo_spec y hy.ne'
    rw [abs_of_pos hpos] at x1 x2
    rw [abs_of_pos hy] at y1 y2
    have hexp : expo x ≤ expo y := by
      have : (2 : ℚ) ^ expo x < (2 : ℚ) ^ (expo y + 1) := by linarith
      have := (zpow_lt_zpow_iff_right₀ one).mp this
      omega
    rcases (max_le_max hexp (le_refl (-126 : ℤ))).lt_or_eq with hlt | heq
    · have hey : expo y ≥ -126 ∧ max (expo x) (-126) + 1 ≤ expo y := by
        rcases le_total (expo y) (-126) with h | h
        · rw [max_eq_right h] at hlt
          have := le_max_right (expo x) (-126)
          omega
        · rw [max_eq_left h] at hlt
          exact ⟨h, by omega⟩
      have a := (f32_binade hpos).2
      have b := (f32_binade hy).1 hey.1
      have c : (2 : ℚ) ^ (max (expo x) (-126) + 1) ≤ (2 : ℚ) ^ expo y :=
        zpow_le_zpow_right₀ one.le hey.2
      linarith
    · have hu : ulp x = ulp y := by
        unfold ulp
        rw [heq]
      have hq := ulp_pos y
      rw [f32_of_ne_zero hpos.ne', f32_of_ne_zero hy.ne', hu]
      have hr : rne (x / ulp y) ≤ rne (y / ulp y) :=
        rne_mono (div_le_div_of_nonneg_right hxy hq.le)
      have hr' : (rne (x / ulp y) : ℚ) ≤ (rne (y / ulp y) : ℚ) := by exact_mod_cast hr
      exact mul_le_mul_of_nonneg_right hr' hq.le
  · rw [← hzero, f32_zero]
    exact f32_nonneg (hzero ▸ hxy)

/-- One is a float. -/
theorem f32_one : f32 1 = 1 := by
  have := f32_intCast 1 (by norm_num)
  simpa using this

/-- Truncation of an integer is the integer. -/
theorem toInt_intCast (n : ℤ) : toInt (n : ℚ) = n := by
  unfold toInt
  split_ifs <;> simp

/-- Truncation does not increase the magnitude. -/
theorem toInt_abs_le (t : ℚ) : |((toInt t : ℤ) : ℚ)| ≤ |t| := by
  unfold toInt
  split_ifs with h
  · have h1 := Int.floor_le t
    have h2 : (0 : ℤ) ≤ ⌊t⌋ := Int.floor_nonneg.mpr h
    have h3 : (0 : ℚ) ≤ (⌊t⌋ : ℚ) := by exact_mod_cast h2
    rw [abs_of_nonneg h3, abs_of_nonneg h]
    exact h1
  · push_neg at h
    have h1 := Int.le_ceil t
    have h2 : ⌈t⌉ ≤ 0 := Int.ceil_le.mpr (by push_cast; exact h.le)
    have h3 : (⌈t⌉ : ℚ) ≤ 0 := by exact_mod_cast h2
    rw [abs_of_nonpos h3, abs_of_neg h]
    linarith

/-- Truncation is monotone. -/
theorem toInt_mono {s t : ℚ} (h : s ≤ t) : toInt s ≤ toInt t := by
  unfold toInt
  split_ifs with hs ht ht
  · exact Int.floor_mono h
  · exact absurd (le_trans hs h) ht
  · push_neg at hs
    have h1 : ⌈s⌉ ≤ 0 := Int.ceil_le.mpr (by push_cast; exact hs.le)
    have h2 : (0 : ℤ) ≤ ⌊t⌋ := Int.floor_nonneg.mpr ht
    omega
  · exact Int.ceil_mono h

/-- The truncation of a float is again a float: converting it back to `float` is exact. -/
theorem f32_toInt_f32 (y : ℚ) : f32 ((toInt (f32 y) : ℤ) : ℚ) = (toInt (f32 y) : ℚ) := by
  obtain ⟨m, k, hm, hk, h⟩ := f32_on_grid y
  rcases le_or_lt 0 k with hk0 | hk0
  · obtain ⟨n, hn⟩ := Int.eq_ofNat_of_zero_le hk0
    have hint : f32 y = ((m * 2 ^ n : ℤ) : ℚ) := by
      rw [h, hn, zpow_natCast]
      push_cast
      ring
    have ht : ((toInt (f32 y) : ℤ) : ℚ) = f32 y := by
      rw [hint, toInt_intCast]
    rw [ht, f32_idem]
  · apply f32_intCast
    have hle := toInt_abs_le (f32 y)
    have hhalf : (2 : ℚ) ^ k ≤ 1 / 2 := by
      have : (2 : ℚ) ^ k ≤ (2 : ℚ) ^ (-1 : ℤ) :=
        zpow_le_zpow_right₀ (by norm_num) (by omega)
      simpa using this
    have hmq : |(m : ℚ)| ≤ 2 ^ 24 := by exact_mod_cast hm
    have hp : (0 : ℚ) < (2 : ℚ) ^ k := by positivity
    have hb : |f32 y| ≤ 2 ^ 23 := by
      rw [h, abs_mul, abs_of_pos hp]
      calc |(m : ℚ)| * 2 ^ k ≤ 2 ^ 24 * (1 / 2) :=
            mul_le_mul hmq hhalf hp.le (by norm_num)
        _ = 2 ^ 23 := by norm_num
    have : |((toInt (f32 y) : ℤ) : ℚ)| < 2 ^ 24 := by
      calc |((toInt (f32 y) : ℤ) : ℚ)| ≤ 2 ^ 23 := le_trans hle hb
        _ < 2 ^ 24 := by norm_num
    exact_mod_cast this

/-- Error propagation through one rounding: if `z` approximates `t` within `e * S` and
`t` is at most `B * S` in magnitude, then `f32 z` approximates `t` within `e' * S` for any
`e'` that absorbs one relative rounding error `2^(-24)`. -/
theorem f32_near (S z t e B e' : ℚ) (hS : 1 / 20 ≤ S) (h1 : |z - t| ≤ e * S)
    (h2 : |t| ≤ B * S) (he : e + (B + e + 1) / 16777216 ≤ e') : |f32 z - t| ≤ e' * S := by
  have hz : |z| ≤ (B + e) * S := by
    have : |z| ≤ |z - t| + |t| := by
      have := abs_add (z - t) t
      simpa using this
    linarith
  have hr := f32_err_rel z
  have e1 : (2 : ℚ) ^ (-24 : ℤ) = 1 / 16777216 := by norm_num
  have e2 : (2 : ℚ) ^ (-150 : ℤ) ≤ 1 / 20 * (1 / 16777216) := by norm_num
  rw [e1] at hr
  have h3 : |f32 z - z| ≤ (B + e + 1) / 16777216 * S := by
    have : |z| * (1 / 16777216) ≤ (B + e) * S * (1 / 16777216) :=
      mul_le_mul_of_nonneg_right hz (by norm_num)
    have : 1 / 20 * (1 / 16777216 : ℚ) ≤ S * (1 / 16777216) :=
      mul_le_mul_of_nonneg_right hS (by norm_num)
    linarith
  have h4 : |f32 z - t| ≤ |f32 z - z| + |z - t| := by
    have := abs_add (f32 z - z) (z - t)
    simpa using this
  have hS0 : 0 ≤ S := by linarith
  have h5 := mul_le_mul_of_nonneg_right he hS0
  linarith

/-- A factor of magnitude at most 1 keeps an approximation and its bound. -/
theorem mul_near (S a t k e B : ℚ) (h1 : |a - t| ≤ e * S) (h2 : |t| ≤ B * S) (hk : |k| ≤ 1) :
    |a * k - t * k| ≤ e * S ∧ |t * k| ≤ B * S := by
  constructor
  · rw [← sub_mul, abs_mul]
    calc |a - t| * |k| ≤ |a - t| * 1 := mul_le_mul_of_nonneg_left hk (abs_nonneg _)
      _ ≤ e * S := by linarith
  · rw [abs_mul]
    calc |t| * |k| ≤ |t| * 1 := mul_le_mul_of_nonneg_left hk (abs_nonneg _)
      _ ≤ B * S := by linarith

/-- A float product with a factor of magnitude at most 1. -/
theorem fmul_near (S a t k e B e' : ℚ) (hS : 1 / 20 ≤ S) (h1 : |a - t| ≤ e * S)
    (h2 : |t| ≤ B * S) (hk : |k| ≤ 1) (he : e + (B + e + 1) / 16777216 ≤ e') :
    |fmul a k - t * k| ≤ e' * S ∧ |t * k| ≤ B * S := by
  obtain ⟨m1, m2⟩ := mul_near S a t k e B h1 h2 hk
  exact ⟨f32_near S _ _ e B e' hS m1 m2 he, m2⟩

/-- A float sum of two approximations. -/
theorem fadd_near (S a ta b tb e B e' : ℚ) (hS : 1 / 20 ≤ S) (ha : |a - ta| ≤ e * S)
    (hb : |b - tb| ≤ e * S) (hta : |ta| ≤ B * S) (htb : |tb| ≤ B * S)
    (he : 2 * e + (2 * B + 2 * e + 1) / 16777216 ≤ e') :
    |fadd a b - (ta + tb)| ≤ e' * S ∧ |ta + tb| ≤ 2 * B * S := by
  have h1 : |a + b - (ta + tb)| ≤ 2 * e * S := by
    have : a + b - (ta + tb) = (a - ta) + (b - tb) := by ring
    rw [this]
    have := abs_add (a - ta) (b - tb)
    linarith
  have h2 : |ta + tb| ≤ 2 * B * S := by
    have := abs_add ta tb
    linarith
  exact ⟨f32_near S _ _ (2 * e) (2 * B) e' hS h1 h2 he, h2⟩

/-- A float difference of two approximations. -/
theorem fsub_near (S a ta b tb e B e' : ℚ) (hS : 1 / 20 ≤ S) (ha : |a - ta| ≤ e * S)
    (hb : |b - tb| ≤ e * S) (hta : |ta| ≤ B * S) (htb : |tb| ≤ B * S)
    (he : 2 * e + (2 * B + 2 * e + 1) / 16777216 ≤ e') :
    |fsub a b - (ta - tb)| ≤ e' * S ∧ |ta - tb| ≤ 2 * B * S := by
  have hb' : |(-b) - (-tb)| ≤ e * S := by
    have : -b - -tb = -(b - tb) := by ring
    rw [this, abs_neg]
    exact hb
  have htb' : |(-tb)| ≤ B * S := by rw [abs_neg]; exact htb
  have := fadd_near S a ta (-b) (-tb) e B e' hS ha hb' hta htb' he
  simpa [fadd, fsub, sub_eq_add_neg] using this

/-! ## Image loading (C1) -/

/-- C1, as stated, fails: with a 100x100 image loaded, a load whose stream cannot be opened
returns `false` and leaves no image, no cached bitmap and no frame-dimension table. -/
theorem LoadNewImage_failure_drops_image :
    loadedState.image = some stillImage ∧
    loadedState.hCachedBitmap = some ⟨1, 0⟩ ∧
    loadedState.dimensionIDs = some 1 ∧
    (LoadNewImage refLibm loadedState FileResult.openFailed).1 = false ∧
    (LoadNewImage refLibm loadedState FileResult.openFailed).2.image = none ∧
    (LoadNewImage refLibm loadedState FileResult.openFailed).2.hCachedBitmap = none ∧
    (LoadNewImage refLibm loadedState FileResult.openFailed).2.dimensionIDs = none := by
  decide!

/-- C1, amended: when the open or the decode fails, `LoadNewImage` returns `false`, the
animation thread is joined, the previous image, the cached bitmap (its handle goes to
`DeleteObject`) and both frame tables are released, scale, rotation and move speed keep
their values, and the compositor has nothing to draw afterwards. -/
theorem LoadNewImage_failure_releases (M : Libm) (state : AppState) (file : FileResult)
    (hfail : file = FileResult.openFailed ∨ file = FileResult.decodeFailed) :
    (LoadNewImage M state file).1 = false ∧
    (LoadNewImage M state file).2.image = none ∧
    (LoadNewImage M state file).2.hCachedBitmap = none ∧
    (LoadNewImage M state file).2.dimensionIDs = none ∧
    (LoadNewImage M state file).2.frameDelays = none ∧
    (LoadNewImage M state file).2.animationThread = false ∧
    (∀ h, state.hCachedBitmap = some h →
      h.handle ∈ (LoadNewImage M state file).2.gdiDeleted) ∧
    (LoadNewImage M state file).2.scale = state.scale ∧
    (LoadNewImage M state file).2.rotation = state.rotation ∧
    (LoadNewImage M state file).2.moveSpeed = state.moveSpeed ∧
    (∀ forceUpdate,
      UpdateLayeredWindowContent M (LoadNewImage M state file).2 forceUpdate =
        (LoadNewImage M state file).2) := by
  have hrel : (releasePrevious state).image = none ∧
      (releasePrevious state).hCachedBitmap = none ∧
      (releasePrevious state).dimensionIDs = none ∧
      (releasePrevious state).frameDelays = none ∧
      (releasePrevious state).animationThread = false ∧
      (∀ h, state.hCachedBitmap = some h → h.handle ∈ (releasePrevious state).gdiDeleted) ∧
      (releasePrevious state).scale = state.scale ∧
      (releasePrevious state).rotation = state.rotation ∧
      (releasePrevious state).moveSpeed = state.moveSpeed := by
    unfold releasePrevious CleanupCachedBitmap
    cases hc : state.hCachedBitmap <;> simp [hc]
  have hload : LoadNewImage M state file = (false, releasePrevious state) := by
    rcases hfail with h | h <;> subst h <;> rfl
  rw [hload]
  obtain ⟨h1, h2, h3, h4, h5, h6, h7, h8, h9⟩ := hrel
  refine ⟨rfl, h1, h2, h3, h4, h5, h6, h7, h8, h9, ?_⟩
  intro forceUpdate
  simp only [UpdateLayeredWindowContent, h1]

/-- The amended C1 at a concrete input: a failed open after `stillImage` was loaded. -/
theorem LoadNewImage_failure_releases_witness :
    (LoadNewImage refLibm loadedState FileResult.openFailed).1 = false ∧
    (LoadNewImage refLibm loadedState FileResult.openFailed).2.image = none ∧
    (LoadNewImage refLibm loadedState FileResult.openFailed).2.hCachedBitmap = none ∧
    (LoadNewImage refLibm loadedState FileResult.openFailed).2.dimensionIDs = none ∧
    (LoadNewImage refLibm loadedState FileResult.openFailed).2.frameDelays = none ∧
    (LoadNewImage refLibm loadedState FileResult.openFailed).2.animationThread = false ∧
    (∀ h, loadedState.hCachedBitmap = some h →
      h.handle ∈ (LoadNewImage refLibm loadedState FileResult.openFailed).2.gdiDeleted) ∧
    (LoadNewImage refLibm loadedState FileResult.openFailed).2.scale = loadedState.scale ∧
    (LoadNewImage refLibm loadedState FileResult.openFailed).2.rotation = loadedState.rotation ∧
    (LoadNewImage refLibm loadedState FileResult.openFailed).2.moveSpeed =
      loadedState.moveSpeed ∧
    (∀ forceUpdate,
      UpdateLayeredWindowContent refLibm
          (LoadNewImage refLibm loadedState FileResult.openFailed).2 forceUpdate =
        (LoadNewImage refLibm loadedState FileResult.openFailed).2) :=
  LoadNewImage_failure_releases refLibm loadedState FileResult.openFailed (Or.inl rfl)

/-! ## Footprint (C5, C6) -/

/-- Rotation 0 converts to 0 radians. -/
theorem toRadians_zero : toRadians 0 = 0 := by
  simp [toRadians, fdiv, fmul, f32_zero]

/-- The magnitude of a float is a float. -/
theorem f32_abs_f32 (x : ℚ) : f32 |f32 x| = |f32 x| := by
  rcases abs_cases (f32 x) with ⟨h, _⟩ | ⟨h, _⟩
  · rw [h, f32_idem]
  · rw [h, f32_neg, f32_idem]

/-- With cosine 1 and sine 0 the footprint arithmetic returns a truncated float as it
is. -/
theorem footprint_axis (y z : ℚ) :
    toInt (fadd (fmul (ofInt (toInt (f32 y))) 1) (fmul (ofInt (toInt (f32 z))) 0)) =
      toInt (f32 y) := by
  simp only [fadd, fmul, ofInt, mul_one, mul_zero, f32_zero, add_zero, f32_toInt_f32,
    toInt_intCast]

/-- With cosine 0 and sine 1 likewise, for the other side. -/
theorem footprint_axis_swap (y z : ℚ) :
    toInt (fadd (fmul (ofInt (toInt (f32 y))) 0) (fmul (ofInt (toInt (f32 z))) 1)) =
      toInt (f32 z) := by
  simp only [fadd, fmul, ofInt, mul_one, mul_zero, f32_zero, zero_add, f32_toInt_f32,
    toInt_intCast]

/-- C6, as stated, fails: a 7x7 image at rotation 0 has footprint `(1, 1)` at scale 0.25,
the truncation of 1.75, and `(6, 6)` at scale `0.95f = 15938355/16777216` (one wheel
notch down from 1.0), the truncation of 6.65, while rounding gives `(2, 2)` and `(7, 7)`. -/
theorem footprint_truncates_not_rounds :
    CalculateRotatedSize refLibm 7 7 0 (1 / 4) = ⟨1, 1⟩ ∧
    roundedFootprint 7 7 (1 / 4) = ⟨2, 2⟩ ∧
    (wheelRun refLibm newAppState [wheelDown]).scale = 15938355 / 16777216 ∧
    CalculateRotatedSize refLibm 7 7 0 (15938355 / 16777216) = ⟨6, 6⟩ ∧
    roundedFootprint 7 7 (15938355 / 16777216) = ⟨7, 7⟩ := by
  decide!

/-- C6, amended: for every width, height and scale, `CalculateRotatedSize` at rotation 0
returns the single-precision products `width*scale` and `height*scale` truncated toward
zero. -/
theorem footprint_no_rotation (M : Libm) (width height : ℤ) (scale : ℚ) :
    CalculateRotatedSize M width height 0 scale =
      ⟨toInt (fmul (ofInt width) scale), toInt (fmul (ofInt height) scale)⟩ := by
  unfold CalculateRotatedSize
  simp only [toRadians_zero, M.cosf_zero, M.sinf_zero, f32_one, f32_zero, abs_one, abs_zero]
  have hx := footprint_axis (ofInt width * scale) (ofInt height * scale)
  have hy := footprint_axis_swap (ofInt width * scale) (ofInt height * scale)
  simp only [fmul] at hx hy ⊢
  rw [hx, hy]

/-- A side of at least 20 pixels scaled by at least 0.05 is at least one pixel long. -/
theorem scaled_side_pos (side : ℤ) (scale : ℚ) (hside : 20 ≤ side) (hs : 1 / 20 ≤ scale) :
    1 ≤ toInt (fmul (ofInt side) scale) := by
  have h20 : f32 ((20 : ℤ) : ℚ) = 20 := by
    have := f32_intCast 20 (by norm_num)
    simpa using this
  have hq : ((20 : ℤ) : ℚ) ≤ (side : ℚ) := by exact_mod_cast hside
  have h1 : (20 : ℚ) ≤ ofInt side := by
    have := f32_mono_nonneg (by norm_num) hq
    rw [h20] at this
    exact this
  have h2 : (1 : ℚ) ≤ ofInt side * scale := by nlinarith
  have h3 : (1 : ℚ) ≤ fmul (ofInt side) scale := by
    have := f32_mono_nonneg (by norm_num) h2
    rw [f32_one] at this
    exact this
  have h4 := toInt_mono h3
  have h5 : toInt (1 : ℚ) = 1 := by
    have := toInt_intCast 1
    simpa using this
  omega

/-- A footprint side is at least one pixel when both scaled sides are and the two
nonnegative float weights sum to at least 1. -/
theorem footprint_side_pos (a b : ℤ) (u v : ℚ) (ha : 1 ≤ a) (hb : 1 ≤ b)
    (hu : 0 ≤ u) (hv : 0 ≤ v) (fu : f32 u = u) (fv : f32 v = v) (huv : 1 ≤ u + v) :
    1 ≤ toInt (fadd (fmul (ofInt a) u) (fmul (ofInt b) v)) := by
  have one_le : ∀ n : ℤ, 1 ≤ n → (1 : ℚ) ≤ ofInt n := by
    intro n hn
    have hq : (1 : ℚ) ≤ (n : ℚ) := by exact_mod_cast hn
    have := f32_mono_nonneg (by norm_num) hq
    rw [f32_one] at this
    exact this
  have ha' := one_le a ha
  have hb' := one_le b hb
  have h1 : u ≤ fmul (ofInt a) u := by
    have := f32_mono_nonneg hu (show u ≤ ofInt a * u by nlinarith)
    rw [fu] at this
    exact this
  have h2 : v ≤ fmul (ofInt b) v := by
    have := f32_mono_nonneg hv (show v ≤ ofInt b * v by nlinarith)
    rw [fv] at this
    exact this
  have h3 : (1 : ℚ) ≤ fadd (fmul (ofInt a) u) (fmul (ofInt b) v) := by
    have := f32_mono_nonneg (show (0 : ℚ) ≤ 1 by norm_num)
      (show (1 : ℚ) ≤ fmul (ofInt a) u + fmul (ofInt b) v by linarith)
    rw [f32_one] at this
    exact this
  have h4 := toInt_mono h3
  have h5 : toInt (1 : ℚ) = 1 := by
    have := toInt_intCast 1
    simpa using this
  omega

/-- C5, as stated, fails: a 1x1 image at rotation 0 has the zero-area footprint `(0, 0)`
at scale 0.5 and at scale `0.95f = 15938355/16777216`, both inside `[0.05, 10]`; loading
the 1x1 image and turning the wheel one notch down leaves a 0x0 window. -/
theorem footprint_zero_area :
    (5 / 100 : ℚ) ≤ 1 / 2 ∧ (1 / 2 : ℚ) ≤ 10 ∧
    CalculateRotatedSize refLibm 1 1 0 (1 / 2) = ⟨0, 0⟩ ∧
    CalculateRotatedSize refLibm 1 1 0 (15938355 / 16777216) = ⟨0, 0⟩ ∧
    (wheelRun refLibm (LoadNewImage refLibm newAppState (FileResult.decoded pixelImage)).2
      [wheelDown]).scale = 15938355 / 16777216 ∧
    (wheelRun refLibm (LoadNewImage refLibm newAppState (FileResult.decoded pixelImage)).2
      [wheelDown]).windowSize = ⟨0, 0⟩ := by
  decide!

/-- C5, amended: whenever the two truncated scaled sides `(int)(width*scale)` and
`(int)(height*scale)` are at least one pixel (by `scaled_side_pos` this is so for every
width and height of at least 20 and every scale of at least 0.05) and the runtime's
`|cos| + |sin|` at the rotation is at least 1, the footprint has `cx > 0` and `cy > 0`. -/
theorem footprint_positive (M : Libm) (width height : ℤ) (angleDeg scale : ℚ)
    (hw : 1 ≤ toInt (fmul (ofInt width) scale)) (hh : 1 ≤ toInt (fmul (ofInt height) scale))
    (htrig : 1 ≤ |f32 (M.cosf (toRadians angleDeg))| + |f32 (M.sinf (toRadians angleDeg))|) :
    0 < (CalculateRotatedSize M width height angleDeg scale).cx ∧
    0 < (CalculateRotatedSize M width height angleDeg scale).cy := by
  unfold CalculateRotatedSize
  simp only
  constructor
  · have := footprint_side_pos _ _ _ _ hw hh (abs_nonneg _) (abs_nonneg _)
      (f32_abs_f32 _) (f32_abs_f32 _) htrig
    omega
  · have := footprint_side_pos _ _ _ _ hw hh (abs_nonneg _) (abs_nonneg _)
      (f32_abs_f32 _) (f32_abs_f32 _) (by rw [add_comm]; exact htrig)
    omega

/-- The amended C5 at a concrete input: a 100x50 image at scale 1 and rotation 0. -/
theorem footprint_positive_witness :
    0 < (CalculateRotatedSize refLibm 100 50 0 1).cx ∧
    0 < (CalculateRotatedSize refLibm 100 50 0 1).cy :=
  footprint_positive refLibm 100 50 0 1 (by decide!) (by decide!) (by decide!)

/-! ## Drag mapper (C2, C3) -/

/-- C2, as stated, fails: grab the 100x100 image at `(11, 10)` at scale 1 and rotation 0,
slow the drag to move speed `0.9f = 7549747/8388608` with one Shift-wheel notch, and move
the cursor to `(500, 400)`.  The window goes to `(491, 391)`, the cursor minus the
truncations of `9.8999996` and `9.0`, while the stated formula gives
`500 - 0.9f * 11 = 490.1000003` for the first coordinate. -/
theorem drag_top_left_truncated :
    grabbedState.grabPointImage = ⟨11, 10⟩ ∧
    slowedDrag.isDragging = true ∧ slowedDrag.image = some stillImage ∧
    slowedDrag.grabPointImage = ⟨11, 10⟩ ∧ slowedDrag.scale = 1 ∧ slowedDrag.rotation = 0 ∧
    slowedDrag.moveSpeed = 7549747 / 8388608 ∧
    (AdjustWindowPosition refLibm slowedDrag ⟨500, 400⟩).windowPos = ⟨491, 391⟩ ∧
    statedTopLeft refLibm ⟨500, 400⟩ ⟨11, 10⟩ 100 100 1 0 (7549747 / 8388608) =
      (4111256783 / 8388608, 1639972865 / 4194304) ∧
    (((AdjustWindowPosition refLibm slowedDrag ⟨500, 400⟩).windowPos.x : ℚ) ≠
      (statedTopLeft refLibm ⟨500, 400⟩ ⟨11, 10⟩ 100 100 1 0 (7549747 / 8388608)).1) := by
  decide!

/-- During a drag on a loaded image the new window top-left is `truncatedTopLeft` of the
current values. -/
theorem AdjustWindowPosition_windowPos (M : Libm) (state : AppState) (cursor : POINT)
    (image : Bitmap) (hdrag : state.isDragging = true) (himg : state.image = some image) :
    (AdjustWindowPosition M state cursor).windowPos =
      truncatedTopLeft M cursor state.grabPointImage image.width image.height
        state.scale state.rotation state.moveSpeed := by
  unfold AdjustWindowPosition
  simp only [hdrag, himg, Bool.not_true, Bool.false_eq_true, if_false]
  rfl

/-- With anchor `(10, 10)` on a 100x100 image at scale 2, rotation 0 and move speed 1 the
top-left is the cursor moved by `(-20, -20)`. -/
theorem truncatedTopLeft_zoomed (M : Libm) (cursor : POINT) :
    truncatedTopLeft M cursor ⟨10, 10⟩ 100 100 2 0 1 = ⟨cursor.x - 20, cursor.y - 20⟩ := by
  have hfoot : CalculateRotatedSize M 100 100 0 2 = ⟨200, 200⟩ := by
    unfold CalculateRotatedSize
    simp only [toRadians_zero, M.cosf_zero, M.sinf_zero, f32_one, f32_zero, abs_one, abs_zero]
    decide!
  unfold truncatedTopLeft
  simp only [hfoot, toRadians_zero, M.cosf_zero, M.sinf_zero, f32_one, f32_zero]
  have e : toInt (fmul (fadd (fdiv (ofInt 200) 2)
      (fsub (fmul (fmul (fsub (ofInt 10) (fdiv (ofInt 100) 2)) 2) 1)
        (fmul (fmul (fsub (ofInt 10) (fdiv (ofInt 100) 2)) 2) 0))) 1) = 20 := by decide!
  have e' : toInt (fmul (fadd (fdiv (ofInt 200) 2)
      (fadd (fmul (fmul (fsub (ofInt 10) (fdiv (ofInt 100) 2)) 2) 0)
        (fmul (fmul (fsub (ofInt 10) (fdiv (ofInt 100) 2)) 2) 1))) 1) = 20 := by decide!
  rw [e, e']

/-- C2, amended: while a drag is active on a loaded image, `AdjustWindowPosition` moves the
window to `cursor - trunc(moveSpeed * (footprint/2 + R(rotation)*scale*(p - imageCenter)))`
per axis, each operation in single precision and the product truncated toward zero; the
result depends only on the cursor, the anchor, the image size and the current scale,
rotation and move speed, so a second state that agrees on these gives the same top-left
whatever else happened before; and once the current values are anchor `(10, 10)`, a
100x100 image, scale 2, rotation 0 and move speed 1, the top-left is `cursor - (20, 20)`. -/
theorem drag_top_left (M : Libm) (state other : AppState) (cursor : POINT)
    (image image' : Bitmap)
    (hdrag : state.isDragging = true) (himg : state.image = some image)
    (odrag : other.isDragging = true) (oimg : other.image = some image')
    (hsize : image'.width = image.width ∧ image'.height = image.height)
    (hgrab : other.grabPointImage = state.grabPointImage)
    (hcur : other.scale = state.scale ∧ other.rotation = state.rotation ∧
      other.moveSpeed = state.moveSpeed) :
    (AdjustWindowPosition M state cursor).windowPos =
      truncatedTopLeft M cursor state.grabPointImage image.width image.height
        state.scale state.rotation state.moveSpeed ∧
    (AdjustWindowPosition M other cursor).windowPos =
      (AdjustWindowPosition M state cursor).windowPos ∧
    (AdjustWindowPosition M
      { state with
        image := some { image with width := 100, height := 100 }
        grabPointImage := ⟨10, 10⟩, scale := 2, rotation := 0, moveSpeed := 1 }
      cursor).windowPos = ⟨cursor.x - 20, cursor.y - 20⟩ := by
  have h := AdjustWindowPosition_windowPos M state cursor image hdrag himg
  refine ⟨h, ?_, ?_⟩
  · rw [h, AdjustWindowPosition_windowPos M other cursor image' odrag oimg, hsize.1, hsize.2,
      hgrab, hcur.1, hcur.2.1, hcur.2.2]
  · have hz := AdjustWindowPosition_windowPos M
      { state with
        image := some { image with width := 100, height := 100 }
        grabPointImage := ⟨10, 10⟩, scale := 2, rotation := 0, moveSpeed := 1 }
      cursor { image with width := 100, height := 100 } hdrag rfl
    rw [hz]
    exact truncatedTopLeft_zoomed M cursor

/-- The amended C2 at a concrete input: the drag with anchor `(10, 10)` at scale 2, the
same drag reached along another path, and the cursor at `(500, 400)`. -/
theorem drag_top_left_witness :
    (AdjustWindowPosition refLibm zoomedDrag ⟨500, 400⟩).windowPos =
      truncatedTopLeft refLibm ⟨500, 400⟩ zoomedDrag.grabPointImage stillImage.width
        stillImage.height zoomedDrag.scale zoomedDrag.rotation zoomedDrag.moveSpeed ∧
    (AdjustWindowPosition refLibm zoomedDragLater ⟨500, 400⟩).windowPos =
      (AdjustWindowPosition refLibm zoomedDrag ⟨500, 400⟩).windowPos ∧
    (AdjustWindowPosition refLibm
      { zoomedDrag with
        image := some { stillImage with width := 100, height := 100 }
        grabPointImage := ⟨10, 10⟩, scale := 2, rotation := 0, moveSpeed := 1 }
      ⟨500, 400⟩).windowPos = ⟨(⟨500, 400⟩ : POINT).x - 20, (⟨500, 400⟩ : POINT).y - 20⟩ :=
  drag_top_left refLibm zoomedDrag zoomedDragLater ⟨500, 400⟩ stillImage stillImage
    (by decide!) (by decide!) (by decide!) (by decide!) ⟨rfl, rfl⟩ (by decide!) (by decide!)

/-- The last step of the inverse: a float numerator within `S/25` of `S * v * (c^2 + s^2)`
divided by `S` is within `3/40` of `v`. -/
theorem fdiv_near (S n v c s : ℚ) (hv : |v| ≤ 32768) (hS : 1 / 20 ≤ S)
    (hunit : |c ^ 2 + s ^ 2 - 1| ≤ 1 / 1048576)
    (hn : |n - S * v * (c ^ 2 + s ^ 2)| ≤ 1 / 25 * S) : |fdiv n S - v| ≤ 3 / 40 := by
  have hS0 : 0 < S := by linarith
  have h1 : |n / S - v * (c ^ 2 + s ^ 2)| ≤ 1 / 25 := by
    have e : n / S - v * (c ^ 2 + s ^ 2) = (n - S * v * (c ^ 2 + s ^ 2)) / S := by
      field_simp
      ring
    rw [e, abs_div, abs_of_pos hS0, div_le_iff₀ hS0]
    exact hn
  have h2 : |v * (c ^ 2 + s ^ 2) - v| ≤ 1 / 32 := by
    have e : v * (c ^ 2 + s ^ 2) - v = v * (c ^ 2 + s ^ 2 - 1) := by ring
    rw [e, abs_mul]
    calc |v| * |c ^ 2 + s ^ 2 - 1| ≤ 32768 * (1 / 1048576) :=
          mul_le_mul hv hunit (abs_nonneg _) (by norm_num)
      _ = 1 / 32 := by norm_num
  have h3 : |n / S - v| ≤ 57 / 800 := by
    have e : n / S - v = (n / S - v * (c ^ 2 + s ^ 2)) + (v * (c ^ 2 + s ^ 2) - v) := by ring
    rw [e]
    have := abs_add (n / S - v * (c ^ 2 + s ^ 2)) (v * (c ^ 2 + s ^ 2) - v)
    linarith
  have h4 : |n / S| ≤ 32769 := by
    have : |n / S| ≤ |n / S - v| + |v| := by
      have := abs_add (n / S - v) v
      simpa using this
    linarith
  have hr := f32_err_rel (n / S)
  have e1 : (2 : ℚ) ^ (-24 : ℤ) = 1 / 16777216 := by norm_num
  have e2 : (2 : ℚ) ^ (-150 : ℤ) ≤ 1 / 100000 := by norm_num
  rw [e1] at hr
  have h5 : |f32 (n / S) - n / S| ≤ 1 / 400 := by
    have := mul_le_mul_of_nonneg_right h4 (show (0 : ℚ) ≤ 1 / 16777216 by norm_num)
    linarith
  unfold fdiv
  have e : f32 (n / S) - v = (f32 (n / S) - n / S) + (n / S - v) := by ring
  rw [e]
  have := abs_add (f32 (n / S) - n / S) (n / S - v)
  linarith

/-- Forward transform followed by the inverse rotation and division, on the canvas-centred
coordinates: with `|x|, |y| ≤ 32768`, a scale in `[0.05, 10]` and cosine and sine values of
magnitude at most 1 with `|c^2 + s^2 - 1| ≤ 2^(-20)`, both coordinates come back within
`3/40`. -/
theorem round_trip_offset (x y S c s : ℚ) (hx : |x| ≤ 32768) (hy : |y| ≤ 32768)
    (hS : 1 / 20 ≤ S) (hc : |c| ≤ 1) (hs : |s| ≤ 1)
    (hunit : |c ^ 2 + s ^ 2 - 1| ≤ 1 / 1048576) :
    |fdiv (fsub (fmul (fsub (fmul (fmul x S) c) (fmul (fmul y S) s)) c)
        (fmul (fadd (fmul (fmul x S) s) (fmul (fmul y S) c)) (-s))) S - x| ≤ 3 / 40 ∧
    |fdiv (fadd (fmul (fsub (fmul (fmul x S) c) (fmul (fmul y S) s)) (-s))
        (fmul (fadd (fmul (fmul x S) s) (fmul (fmul y S) c)) c)) S - y| ≤ 3 / 40 := by
  have hS0 : 0 ≤ S := by linarith
  have hns : |(-s)| ≤ 1 := by rw [abs_neg]; exact hs
  -- the two scaled coordinates
  have hA1 : |x * S| ≤ 32768 * S := by
    rw [abs_mul, abs_of_nonneg hS0]
    exact mul_le_mul_of_nonneg_right hx hS0
  have hA2 : |y * S| ≤ 32768 * S := by
    rw [abs_mul, abs_of_nonneg hS0]
    exact mul_le_mul_of_nonneg_right hy hS0
  have ha1 : |fmul x S - x * S| ≤ 1 / 500 * S :=
    f32_near S (x * S) (x * S) 0 32768 (1 / 500) hS (by simp) hA1 (by norm_num)
  have ha2 : |fmul y S - y * S| ≤ 1 / 500 * S :=
    f32_near S (y * S) (y * S) 0 32768 (1 / 500) hS (by simp) hA2 (by norm_num)
  -- the four products of the forward rotation
  obtain ⟨hb1, hB1⟩ := fmul_near S _ _ c (1 / 500) 32768 (1 / 250) hS ha1 hA1 hc (by norm_num)
  obtain ⟨hb2, hB2⟩ := fmul_near S _ _ s (1 / 500) 32768 (1 / 250) hS ha2 hA2 hs (by norm_num)
  obtain ⟨hb3, hB3⟩ := fmul_near S _ _ s (1 / 500) 32768 (1 / 250) hS ha1 hA1 hs (by norm_num)
  obtain ⟨hb4, hB4⟩ := fmul_near S _ _ c (1 / 500) 32768 (1 / 250) hS ha2 hA2 hc (by norm_num)
  -- the transformed point
  obtain ⟨hX, hX0⟩ := fsub_near S _ _ _ _ (1 / 250) 32768 (3 / 250) hS hb1 hb2 hB1 hB2
    (by norm_num)
  obtain ⟨hY, hY0⟩ := fadd_near S _ _ _ _ (1 / 250) 32768 (3 / 250) hS hb3 hb4 hB3 hB4
    (by norm_num)
  have hX0' : |x * S * c - y * S * s| ≤ 65536 * S := by linarith
  have hY0' : |x * S * s + y * S * c| ≤ 65536 * S := by linarith
  -- the four products of the inverse rotation
  obtain ⟨hd1, hD1⟩ := fmul_near S _ _ c (3 / 250) 65536 (2 / 125) hS hX hX0' hc (by norm_num)
  obtain ⟨hd2, hD2⟩ := fmul_near S _ _ (-s) (3 / 250) 65536 (2 / 125) hS hY hY0' hns
    (by norm_num)
  obtain ⟨hd3, hD3⟩ := fmul_near S _ _ (-s) (3 / 250) 65536 (2 / 125) hS hX hX0' hns
    (by norm_num)
  obtain ⟨hd4, hD4⟩ := fmul_near S _ _ c (3 / 250) 65536 (2 / 125) hS hY hY0' hc (by norm_num)
  -- the two numerators
  obtain ⟨hN1, _⟩ := fsub_near S _ _ _ _ (2 / 125) 65536 (1 / 25) hS hd1 hd2 hD1 hD2
    (by norm_num)
  obtain ⟨hN2, _⟩ := fadd_near S _ _ _ _ (2 / 125) 65536 (1 / 25) hS hd3 hd4 hD3 hD4
    (by norm_num)
  constructor
  · apply fdiv_near S _ x c s hx hS hunit
    have e : S * x * (c ^ 2 + s ^ 2) =
        (x * S * c - y * S * s) * c - (x * S * s + y * S * c) * (-s) := by ring
    rw [e]
    exact hN1
  · apply fdiv_near S _ y c s hy hS hunit
    have e : S * y * (c ^ 2 + s ^ 2) =
        (x * S * c - y * S * s) * (-s) + (x * S * s + y * S * c) * c := by ring
    rw [e]
    exact hN2

/-- Half of an image side of at most 65536 pixels is a float. -/
theorem half_side_exact (w : ℤ) (hw0 : 0 ≤ w) (hw : w ≤ 65536) :
    fdiv (ofInt w) 2 = (w : ℚ) / 2 := by
  have hlt : |w| < 2 ^ 24 := by
    rw [abs_of_nonneg hw0]
    omega
  have h2 := f32_repr w (-1) hlt (by norm_num)
  have e : (w : ℚ) * (2 : ℚ) ^ (-1 : ℤ) = (w : ℚ) / 2 := by
    rw [zpow_neg_one]
    ring
  rw [e] at h2
  unfold fdiv ofInt
  rw [f32_intCast w hlt, h2]

/-- The canvas-centred coordinate of an integer point inside the image is computed
exactly. -/
theorem centred_exact (p w : ℤ) (hp0 : 0 ≤ p) (hpw : p < w) (hw : w ≤ 65536) :
    fsub (ofInt p) (fdiv (ofInt w) 2) = (p : ℚ) - (w : ℚ) / 2 := by
  have hp : |p| < 2 ^ 24 := by
    rw [abs_of_nonneg hp0]
    omega
  have hd : |2 * p - w| < 2 ^ 24 := by
    rw [abs_lt]
    constructor <;> omega
  have h2 := f32_repr (2 * p - w) (-1) hd (by norm_num)
  have e : ((2 * p - w : ℤ) : ℚ) * (2 : ℚ) ^ (-1 : ℤ) = (p : ℚ) - (w : ℚ) / 2 := by
    rw [zpow_neg_one]
    push_cast
    ring
  rw [e] at h2
  rw [half_side_exact w (by omega) hw]
  unfold fsub ofInt
  rw [f32_intCast p hp, h2]

/-- The magnitude of the centred coordinate is at most half the largest side. -/
theorem centred_abs_le (p w : ℤ) (hp0 : 0 ≤ p) (hpw : p < w) (hw : w ≤ 65536) :
    |(p : ℚ) - (w : ℚ) / 2| ≤ 32768 := by
  have h1 : (0 : ℚ) ≤ (p : ℚ) := by exact_mod_cast hp0
  have h2 : (p : ℚ) < (w : ℚ) := by exact_mod_cast hpw
  have h3 : (w : ℚ) ≤ 65536 := by exact_mod_cast hw
  rw [abs_le]
  constructor <;> linarith

/-- Negating the angle negates the radians. -/
theorem toRadians_neg (angleDeg : ℚ) : toRadians (-angleDeg) = -toRadians angleDeg := by
  unfold toRadians fdiv fmul
  rw [neg_mul, f32_neg, neg_div, f32_neg]

/-- Adding the image centre back and truncating: a value within `3/40` of the centred
coordinate of `p` yields `p` or `p - 1`. -/
theorem recentre_near (r : ℚ) (p w : ℤ) (hp0 : 0 ≤ p) (hpw : p < w) (hw : w ≤ 65536)
    (hr : |r - ((p : ℚ) - (w : ℚ) / 2)| ≤ 3 / 40) :
    toInt (fadd r (fdiv (ofInt w) 2)) = p ∨ toInt (fadd r (fdiv (ofInt w) 2)) = p - 1 := by
  rw [half_side_exact w (by omega) hw]
  have h1 : (0 : ℚ) ≤ (p : ℚ) := by exact_mod_cast hp0
  have h2 : (p : ℚ) < (w : ℚ) := by exact_mod_cast hpw
  have h3 : (w : ℚ) ≤ 65536 := by exact_mod_cast hw
  obtain ⟨l, u⟩ := abs_le.mp hr
  have hsum : |r + (w : ℚ) / 2| ≤ 65537 := by
    rw [abs_le]
    constructor <;> linarith
  have he := f32_err_rel (r + (w : ℚ) / 2)
  have e1 : (2 : ℚ) ^ (-24 : ℤ) = 1 / 16777216 := by norm_num
  have e2 : (2 : ℚ) ^ (-150 : ℤ) ≤ 1 / 100000 := by norm_num
  rw [e1] at he
  have he' : |f32 (r + (w : ℚ) / 2) - (r + (w : ℚ) / 2)| ≤ 1 / 200 := by
    have := mul_le_mul_of_nonneg_right hsum (show (0 : ℚ) ≤ 1 / 16777216 by norm_num)
    linarith
  obtain ⟨l', u'⟩ := abs_le.mp he'
  unfold fadd
  set z := f32 (r + (w : ℚ) / 2) with hz
  have zl : (p : ℚ) - 1 / 2 < z := by linarith
  have zu : z < (p : ℚ) + 1 / 2 := by linarith
  unfold toInt
  rcases le_or_lt (p : ℚ) z with hge | hlt
  · left
    have z0 : 0 ≤ z := le_trans h1 hge
    rw [if_pos z0, Int.floor_eq_iff]
    constructor
    · exact hge
    · linarith
  · rcases le_or_lt 0 z with z0 | z0
    · right
      rw [if_pos z0, Int.floor_eq_iff]
      push_cast
      constructor <;> linarith
    · left
      have hp : p = 0 := by
        have : (p : ℚ) < 1 / 2 := by linarith
        have : (p : ℚ) < 1 := by linarith
        have : p < 1 := by exact_mod_cast this
        omega
      rw [if_neg (not_le.mpr z0), hp, Int.ceil_eq_iff]
      rw [hp] at zl
      push_cast at zl ⊢
      constructor <;> linarith

/-- C3, as stated, fails: on a 100x100 image at rotation 0 and scale `0.9f =
7549747/8388608` (the scale after two plain wheel notches down from 1.0), the point
`(7, 7)` is transformed to the offset `(-38.70000076, -38.70000076)` and the drag-start
inverse returns `(6, 6)`. -/
theorem round_trip_off_by_one :
    (5 / 100 : ℚ) ≤ 7549747 / 8388608 ∧ (7549747 / 8388608 : ℚ) ≤ 10 ∧
    (wheelRun refLibm newAppState [wheelDown, wheelDown]).scale = 7549747 / 8388608 ∧
    TransformPoint refLibm ⟨7, 7⟩ 0 (7549747 / 8388608) 100 100 =
      ⟨-10144973 / 262144, -10144973 / 262144⟩ ∧
    inverseTransformPoint refLibm
      (TransformPoint refLibm ⟨7, 7⟩ 0 (7549747 / 8388608) 100 100).X
      (TransformPoint refLibm ⟨7, 7⟩ 0 (7549747 / 8388608) 100 100).Y
      0 (7549747 / 8388608) 100 100 = ⟨6, 6⟩ := by
  decide!

/-- C3, amended: for an image of at most 65536 x 65536 pixels, an integer point `p` inside
it, a scale of at least 0.05 and a rotation at which the runtime's cosine is even, its sine
odd, both at most 1 in magnitude and `|cos^2 + sin^2 - 1| ≤ 2^(-20)`, the forward transform
followed by the drag-start inverse returns, in each coordinate, `p` or `p - 1`: the value
before the final truncation lies within float rounding of `p`, possibly just below it. -/
theorem round_trip_within_pixel (M : Libm) (p : POINT) (w h : ℤ) (rotation scale : ℚ)
    (hw : w ≤ 65536) (hh : h ≤ 65536) (hpx : 0 ≤ p.x ∧ p.x < w) (hpy : 0 ≤ p.y ∧ p.y < h)
    (hscale : 1 / 20 ≤ scale)
    (heven : M.cosf (-toRadians rotation) = M.cosf (toRadians rotation))
    (hodd : M.sinf (-toRadians rotation) = -M.sinf (toRadians rotation))
    (hcos : |f32 (M.cosf (toRadians rotation))| ≤ 1)
    (hsin : |f32 (M.sinf (toRadians rotation))| ≤ 1)
    (hunit : |f32 (M.cosf (toRadians rotation)) ^ 2 + f32 (M.sinf (toRadians rotation)) ^ 2 - 1|
      ≤ 1 / 1048576) :
    ((inverseTransformPoint M (TransformPoint M p rotation scale w h).X
        (TransformPoint M p rotation scale w h).Y rotation scale w h).x = p.x ∨
      (inverseTransformPoint M (TransformPoint M p rotation scale w h).X
        (TransformPoint M p rotation scale w h).Y rotation scale w h).x = p.x - 1) ∧
    ((inverseTransformPoint M (TransformPoint M p rotation scale w h).X
        (TransformPoint M p rotation scale w h).Y rotation scale w h).y = p.y ∨
      (inverseTransformPoint M (TransformPoint M p rotation scale w h).X
        (TransformPoint M p rotation scale w h).Y rotation scale w h).y = p.y - 1) := by
  obtain ⟨hx0, hxw⟩ := hpx
  obtain ⟨hy0, hyh⟩ := hpy
  have hrt := round_trip_offset ((p.x : ℚ) - (w : ℚ) / 2) ((p.y : ℚ) - (h : ℚ) / 2) scale
    (f32 (M.cosf (toRadians rotation))) (f32 (M.sinf (toRadians rotation)))
    (centred_abs_le p.x w hx0 hxw hw) (centred_abs_le p.y h hy0 hyh hh) hscale hcos hsin hunit
  unfold inverseTransformPoint TransformPoint
  simp only [toRadians_neg, heven, hodd, f32_neg, centred_exact p.x w hx0 hxw hw,
    centred_exact p.y h hy0 hyh hh]
  exact ⟨recentre_near _ p.x w hx0 hxw hw hrt.1, recentre_near _ p.y h hy0 hyh hh hrt.2⟩

/-- The amended C3 at a concrete input: the point `(79, 79)` of a 100x100 image at
rotation 30 and scale `0.9f`, where the round trip returns `(79, 78)`. -/
theorem round_trip_within_pixel_witness :
    ((inverseTransformPoint refLibm
        (TransformPoint refLibm ⟨79, 79⟩ 30 (7549747 / 8388608) 100 100).X
        (TransformPoint refLibm ⟨79, 79⟩ 30 (7549747 / 8388608) 100 100).Y
        30 (7549747 / 8388608) 100 100).x = (⟨79, 79⟩ : POINT).x ∨
      (inverseTransformPoint refLibm
        (TransformPoint refLibm ⟨79, 79⟩ 30 (7549747 / 8388608) 100 100).X
        (TransformPoint refLibm ⟨79, 79⟩ 30 (7549747 / 8388608) 100 100).Y
        30 (7549747 / 8388608) 100 100).x = (⟨79, 79⟩ : POINT).x - 1) ∧
    ((inverseTransformPoint refLibm
        (TransformPoint refLibm ⟨79, 79⟩ 30 (7549747 / 8388608) 100 100).X
        (TransformPoint refLibm ⟨79, 79⟩ 30 (7549747 / 8388608) 100 100).Y
        30 (7549747 / 8388608) 100 100).y = (⟨79, 79⟩ : POINT).y ∨
      (inverseTransformPoint refLibm
        (TransformPoint refLibm ⟨79, 79⟩ 30 (7549747 / 8388608) 100 100).X
        (TransformPoint refLibm ⟨79, 79⟩ 30 (7549747 / 8388608) 100 100).Y
        30 (7549747 / 8388608) 100 100).y = (⟨79, 79⟩ : POINT).y - 1) :=
  round_trip_within_pixel refLibm ⟨79, 79⟩ 100 100 30 (7549747 / 8388608) (by decide)
    (by decide) (by decide) (by decide) (by decide!) (by decide!) (by decide!) (by decide!)
    (by decide!) (by decide!)

/-! ## Scheduler delay (C4) and frame order (C10) -/

/-- Raw delays whose tenfold value fits a 32-bit `long` give `clamp(raw*10, 10, 1000)`. -/
theorem frameDelayMs_of_fits (raw : ℤ) (hlo : -2147483648 ≤ raw * 10)
    (hhi : raw * 10 < 2147483648) : frameDelayMs raw = max 10 (min (raw * 10) 1000) := by
  unfold frameDelayMs wrapLong
  have h : (raw * 10 + 2 ^ 31) % 2 ^ 32 - 2 ^ 31 = raw * 10 := by
    norm_num
    omega
  simp only [h]

/-- Whatever the raw delay, the computed delay lies between 10 and 1000. -/
theorem frameDelayMs_range (raw : ℤ) : 10 ≤ frameDelayMs raw ∧ frameDelayMs raw ≤ 1000 := by
  unfold frameDelayMs
  constructor
  · exact le_max_left _ _
  · exact max_le (by norm_num) (min_le_right _ _)

/-- C4, as stated, fails: the raw delay 214748365 is a 32-bit signed integer whose tenfold
value wraps to a negative `long`, so the loop sleeps 10 ms where `clamp(raw*10, 10, 1000)`
is 1000 ms. -/
theorem frameDelayMs_overflow :
    (-2147483648 : ℤ) ≤ 214748365 ∧ (214748365 : ℤ) < 2147483648 ∧
    frameDelayMs 214748365 = 10 ∧
    max (10 : ℤ) (min (214748365 * 10) 1000) = 1000 := by
  decide

/-- C4, amended: for every 32-bit raw delay the time slept lies in `[10, 1000]`; it equals
`clamp(raw*10, 10, 1000)` whenever `raw*10` fits a 32-bit `long`; raw delays 0, 5 and 200
give 10, 50 and 1000; and the loop sleeps exactly this time for the table entry of the
current frame. -/
theorem frameDelayMs_clamp (raw : ℤ) :
    (10 ≤ frameDelayMs raw ∧ frameDelayMs raw ≤ 1000) ∧
    (-2147483648 ≤ raw * 10 → raw * 10 < 2147483648 →
      frameDelayMs raw = max 10 (min (raw * 10) 1000)) ∧
    (frameDelayMs 0 = 10 ∧ frameDelayMs 5 = 50 ∧ frameDelayMs 200 = 1000) ∧
    (∀ state : AppState, rawDelay state = some raw →
      sleepMs state = some (frameDelayMs raw)) := by
  refine ⟨frameDelayMs_range raw, frameDelayMs_of_fits raw, by decide, ?_⟩
  intro state h
  simp [sleepMs, h]

/-- `UpdateLayeredWindowContent` touches neither the image nor the frame counters. -/
theorem UpdateLayeredWindowContent_frames (M : Libm) (state : AppState) (forceUpdate : Bool) :
    (UpdateLayeredWindowContent M state forceUpdate).image = state.image ∧
    (UpdateLayeredWindowContent M state forceUpdate).frameCount = state.frameCount ∧
    (UpdateLayeredWindowContent M state forceUpdate).currentFrame = state.currentFrame ∧
    (UpdateLayeredWindowContent M state forceUpdate).frameDelays = state.frameDelays := by
  unfold UpdateLayeredWindowContent
  cases himg : state.image with
  | none => simp [himg]
  | some image =>
    simp only
    split_ifs with hhit
    · simp [himg]
    · unfold CleanupCachedBitmap
      cases hc : state.hCachedBitmap <;> simp [himg]

/-- Loading a decoded image with more than one frame and a readable delay table installs
the image, its frame count and delay table, resets the current frame to 0 and starts the
animation thread. -/
theorem LoadNewImage_animated (M : Libm) (state : AppState) (image : Bitmap)
    (delays : List ℤ) (hdim : 0 < image.frameDimensionsCount) (hn : 1 < image.frameCount)
    (hsize : 0 < image.frameDelaySize) (hdelay : image.frameDelay = some delays) :
    (LoadNewImage M state (FileResult.decoded image)).1 = true ∧
    (LoadNewImage M state (FileResult.decoded image)).2.image = some image ∧
    (LoadNewImage M state (FileResult.decoded image)).2.frameCount = image.frameCount ∧
    (LoadNewImage M state (FileResult.decoded image)).2.currentFrame = 0 ∧
    (LoadNewImage M state (FileResult.decoded image)).2.frameDelays = some delays ∧
    (LoadNewImage M state (FileResult.decoded image)).2.animationThread = true := by
  have hinst : (installFrames (releasePrevious state) image).frameCount = image.frameCount ∧
      (installFrames (releasePrevious state) image).currentFrame = 0 ∧
      (installFrames (releasePrevious state) image).frameDelays = some delays ∧
      (installFrames (releasePrevious state) image).animationThread = true := by
    unfold installFrames
    simp [hdim, hn, hsize, hdelay]
  obtain ⟨i1, i2, i3, i4⟩ := hinst
  obtain ⟨u1, u2, u3, u4⟩ := UpdateLayeredWindowContent_frames M
    { installFrames (releasePrevious state) image with image := some image } true
  have u5 : (UpdateLayeredWindowContent M
      { installFrames (releasePrevious state) image with image := some image }
      true).animationThread = true := by
    unfold UpdateLayeredWindowContent
    simp only [cacheHit, Bool.not_true, Bool.and_false, Bool.false_and, Bool.false_eq_true,
      if_false]
    unfold CleanupCachedBitmap
    cases hc : (installFrames (releasePrevious state) image).hCachedBitmap <;> simp [hc, i4]
  have hload : LoadNewImage M state (FileResult.decoded image) =
      (true, UpdateLayeredWindowContent M
        { installFrames (releasePrevious state) image with image := some image } true) := rfl
  rw [hload]
  exact ⟨rfl, u1, u2.trans i1, u3.trans i2, u4.trans i3, u5⟩

/-- Truncation toward zero stays within one of its argument. -/
theorem toInt_sub_abs_lt (t : ℚ) : |t - (toInt t : ℚ)| < 1 := by
  unfold toInt
  split_ifs with h
  · have h1 := Int.floor_le t
    have h2 := Int.lt_floor_add_one t
    rw [abs_lt]
    constructor <;> linarith
  · have h1 := Int.le_ceil t
    have h2 := Int.ceil_lt_add_one t
    rw [abs_lt]
    constructor <;> linarith

/-- The remainder computed by `fmod` is smaller in magnitude than the divisor. -/
theorem fmodf_abs_lt (x y : ℚ) (hy : 0 < y) : |fmodf x y| < y := by
  have h := toInt_sub_abs_lt (x / y)
  have e : fmodf x y = y * (x / y - (toInt (x / y) : ℚ)) := by
    unfold fmodf
    field_simp
  rw [e, abs_mul, abs_of_pos hy]
  calc y * |x / y - (toInt (x / y) : ℚ)| < y * 1 := by
        exact mul_lt_mul_of_pos_left h hy
    _ = y := mul_one y

/-- Repositioning the window leaves the three transform scalars alone. -/
theorem AdjustWindowPosition_transform (M : Libm) (state : AppState) (cursor : POINT) :
    (AdjustWindowPosition M state cursor).scale = state.scale ∧
    (AdjustWindowPosition M state cursor).rotation = state.rotation ∧
    (AdjustWindowPosition M state cursor).moveSpeed = state.moveSpeed := by
  unfold AdjustWindowPosition
  split_ifs
  · exact ⟨rfl, rfl, rfl⟩
  · cases h : state.image <;> simp

/-- Compositing leaves the three transform scalars alone. -/
theorem UpdateLayeredWindowContent_transform (M : Libm) (state : AppState)
    (forceUpdate : Bool) :
    (UpdateLayeredWindowContent M state forceUpdate).scale = state.scale ∧
    (UpdateLayeredWindowContent M state forceUpdate).rotation = state.rotation ∧
    (UpdateLayeredWindowContent M state forceUpdate).moveSpeed = state.moveSpeed := by
  unfold UpdateLayeredWindowContent
  cases himg : state.image with
  | none => simp
  | some image =>
    simp only
    split_ifs with hhit
    · simp
    · unfold CleanupCachedBitmap
      cases hc : state.hCachedBitmap <;> simp

/-- The transform scalars after a wheel message are those of `wheelTransform`. -/
theorem onMouseWheel_transform (M : Libm) (state : AppState) (e : WheelEvent) :
    (onMouseWheel M state e).scale = (wheelTransform state e).scale ∧
    (onMouseWheel M state e).rotation = (wheelTransform state e).rotation ∧
    (onMouseWheel M state e).moveSpeed = (wheelTransform state e).moveSpeed := by
  unfold onMouseWheel
  obtain ⟨a1, a2, a3⟩ := AdjustWindowPosition_transform M (wheelTransform state e) e.cursor
  obtain ⟨u1, u2, u3⟩ := UpdateLayeredWindowContent_transform M
    (AdjustWindowPosition M (wheelTransform state e) e.cursor) false
  exact ⟨u1.trans a1, u2.trans a2, u3.trans a3⟩

/-- One wheel message keeps the rotation strictly between -360 and 360. -/
theorem wheelTransform_rotation (state : AppState) (e : WheelEvent)
    (h : -360 < state.rotation ∧ state.rotation < 360) :
    -360 < (wheelTransform state e).rotation ∧ (wheelTransform state e).rotation < 360 := by
  by_cases hs : e.shiftPressed = true
  · simpa [wheelTransform, wheelClamp, wheelStep, hs] using h
  by_cases hc : e.ctrlPressed = true
  · simpa [wheelTransform, wheelClamp, wheelStep, hs, hc] using h
  by_cases ha : e.altPressed = true
  · simp only [wheelTransform, wheelClamp, wheelStep, hs, hc, ha, if_true, if_false]
    exact abs_lt.mp (fmodf_abs_lt _ 360 (by norm_num))
  · simpa [wheelTransform, wheelClamp, wheelStep, hs, hc, ha] using h

/-- C7, as stated, fails: one Alt-wheel notch with negative delta from the initial
rotation 0 stores the rotation -2, which is outside `[0, 360)`. -/
theorem rotation_negative_after_one_step :
    newAppState.rotation = 0 ∧
    (wheelRun refLibm newAppState [wheelDownAlt]).rotation = -2 ∧
    ¬ (0 ≤ (wheelRun refLibm newAppState [wheelDownAlt]).rotation ∧
        (wheelRun refLibm newAppState [wheelDownAlt]).rotation < 360) := by
  decide!

/-- C7, amended: starting from rotation 0, after every run of wheel messages (rotate steps
of +2 or -2 degrees, and any other modifier combination) the stored rotation lies strictly
between -360 and 360; `fmod` keeps the sign of the running value. -/
theorem rotation_stays_wrapped (M : Libm) (state : AppState) (es : List WheelEvent)
    (h0 : state.rotation = 0) :
    -360 < (wheelRun M state es).rotation ∧ (wheelRun M state es).rotation < 360 := by
  have key : ∀ (es : List WheelEvent) (s : AppState),
      (-360 < s.rotation ∧ s.rotation < 360) →
      -360 < (wheelRun M s es).rotation ∧ (wheelRun M s es).rotation < 360 := by
    intro es
    induction es with
    | nil => intro s hs; exact hs
    | cons e es ih =>
      intro s hs
      have : wheelRun M s (e :: es) = wheelRun M (onMouseWheel M s e) es := rfl
      rw [this]
      apply ih
      rw [(onMouseWheel_transform M s e).2.1]
      exact wheelTransform_rotation s e hs
  exact key es state (by rw [h0]; norm_num)

/-- The amended C7 at a concrete input: three Alt-wheel notches from the initial state. -/
theorem rotation_stays_wrapped_witness :
    -360 < (wheelRun refLibm newAppState [wheelDownAlt, wheelDownAlt, wheelDownAlt]).rotation ∧
    (wheelRun refLibm newAppState [wheelDownAlt, wheelDownAlt, wheelDownAlt]).rotation < 360 :=
  rotation_stays_wrapped refLibm newAppState [wheelDownAlt, wheelDownAlt, wheelDownAlt] rfl

/-- The literal `0.05f`. -/
theorem f32_005 : f32 (5 / 100) = 13421773 / 268435456 := by decide!

/-- The literal `0.01f`. -/
theorem f32_001 : f32 (1 / 100) = 5368709 / 536870912 := by decide!

/-- The literal `0.1f`. -/
theorem f32_01 : f32 (1 / 10) = 13421773 / 134217728 := by decide!

/-- A float sum of a value of magnitude at most 10 and a step of magnitude at most `c`
differs from the value by at most `c` and one rounding error. -/
theorem fadd_step_bound (v d c : ℚ) (hv : |v| ≤ 10) (hd : |d| ≤ c) (hc : c ≤ 1) :
    |fadd v d - v| ≤ c + 1 / 1000000 - 1 / 100000000 := by
  have h := f32_err_rel (v + d)
  have hsum : |v + d| ≤ 11 := by
    calc |v + d| ≤ |v| + |d| := abs_add v d
      _ ≤ 11 := by linarith
  have e1 : (2 : ℚ) ^ (-24 : ℤ) = 1 / 16777216 := by norm_num
  have e2 : (2 : ℚ) ^ (-150 : ℤ) ≤ 1 / 100000000 := by norm_num
  rw [e1] at h
  have h' : |f32 (v + d) - (v + d)| ≤ 11 * (1 / 16777216) + 1 / 100000000 := by
    calc |f32 (v + d) - (v + d)| ≤ |v + d| * (1 / 16777216) + (2 : ℚ) ^ (-150 : ℤ) := h
      _ ≤ 11 * (1 / 16777216) + 1 / 100000000 := by
        have := mul_le_mul_of_nonneg_right hsum (show (0 : ℚ) ≤ 1 / 16777216 by norm_num)
        linarith
  unfold fadd
  have e : f32 (v + d) - v = (f32 (v + d) - (v + d)) + d := by ring
  rw [e]
  calc |f32 (v + d) - (v + d) + d| ≤ |f32 (v + d) - (v + d)| + |d| := abs_add _ _
    _ ≤ c + 1 / 1000000 - 1 / 100000000 := by
      have : (11 : ℚ) * (1 / 16777216) + 1 / 100000000 ≤ 1 / 1000000 - 1 / 100000000 := by
        norm_num
      linarith

/-- The ranges of scale and move speed are kept by one wheel message. -/
theorem wheelTransform_ranges (state : AppState) (e : WheelEvent)
    (h : (f32 (5 / 100) ≤ state.scale ∧ state.scale ≤ 10) ∧
      (f32 (1 / 10) ≤ state.moveSpeed ∧ state.moveSpeed ≤ 5)) :
    (f32 (5 / 100) ≤ (wheelTransform state e).scale ∧ (wheelTransform state e).scale ≤ 10) ∧
    (f32 (1 / 10) ≤ (wheelTransform state e).moveSpeed ∧
      (wheelTransform state e).moveSpeed ≤ 5) := by
  have c1 : f32 (5 / 100) ≤ 10 := by rw [f32_005]; norm_num
  have c2 : f32 (1 / 10) ≤ 5 := by rw [f32_01]; norm_num
  by_cases hs : e.shiftPressed = true
  · simp only [wheelTransform, wheelClamp, wheelStep, hs, if_true]
    exact ⟨h.1, le_max_left _ _, max_le c2 (min_le_right _ _)⟩
  by_cases hc : e.ctrlPressed = true
  · simp only [wheelTransform, wheelClamp, wheelStep, hs, hc, if_true, if_false]
    exact ⟨⟨le_max_left _ _, max_le c1 (min_le_right _ _)⟩, h.2⟩
  by_cases ha : e.altPressed = true
  · simp only [wheelTransform, wheelClamp, wheelStep, hs, hc, ha, if_true, if_false]
    exact h
  · simp only [wheelTransform, wheelClamp, wheelStep, hs, hc, ha, if_false]
    exact ⟨⟨le_max_left _ _, max_le c1 (min_le_right _ _)⟩, h.2⟩

/-- The ranges of scale and move speed are kept by every run of wheel messages. -/
theorem wheelRun_ranges (M : Libm) (es : List WheelEvent) (state : AppState)
    (h : (f32 (5 / 100) ≤ state.scale ∧ state.scale ≤ 10) ∧
      (f32 (1 / 10) ≤ state.moveSpeed ∧ state.moveSpeed ≤ 5)) :
    (f32 (5 / 100) ≤ (wheelRun M state es).scale ∧ (wheelRun M state es).scale ≤ 10) ∧
    (f32 (1 / 10) ≤ (wheelRun M state es).moveSpeed ∧ (wheelRun M state es).moveSpeed ≤ 5) := by
  induction es generalizing state with
  | nil => exact h
  | cons e es ih =>
    have : wheelRun M state (e :: es) = wheelRun M (onMouseWheel M state e) es := rfl
    rw [this]
    apply ih
    obtain ⟨t1, _, t3⟩ := onMouseWheel_transform M state e
    rw [t1, t3]
    exact wheelTransform_ranges state e h

/-- The scale after the compound assignment of a wheel message. -/
theorem wheelStep_scale (state : AppState) (e : WheelEvent) :
    (wheelStep state e).scale =
      if e.shiftPressed = true then state.scale
      else if e.ctrlPressed = true then
        fadd state.scale (if e.delta > 0 then f32 (1 / 100) else -f32 (1 / 100))
      else if e.altPressed = true then state.scale
      else fadd state.scale (if e.delta > 0 then f32 (5 / 100) else -f32 (5 / 100)) := by
  unfold wheelStep
  split_ifs <;> rfl

/-- The move speed after the compound assignment of a wheel message. -/
theorem wheelStep_moveSpeed (state : AppState) (e : WheelEvent) :
    (wheelStep state e).moveSpeed =
      if e.shiftPressed = true then
        fadd state.moveSpeed (if e.delta > 0 then f32 (1 / 10) else -f32 (1 / 10))
      else state.moveSpeed := by
  unfold wheelStep
  split_ifs <;> rfl

/-- The change made by the compound assignment of one wheel message, before clamping. -/
theorem wheelStep_bounds (state : AppState) (e : WheelEvent)
    (h : (f32 (5 / 100) ≤ state.scale ∧ state.scale ≤ 10) ∧
      (f32 (1 / 10) ≤ state.moveSpeed ∧ state.moveSpeed ≤ 5)) :
    |(wheelStep state e).scale - state.scale| ≤ 5 / 100 + 1 / 1000000 ∧
    (e.ctrlPressed = true →
      |(wheelStep state e).scale - state.scale| ≤ 1 / 100 + 1 / 1000000) ∧
    |(wheelStep state e).moveSpeed - state.moveSpeed| ≤ 1 / 10 + 1 / 1000000 := by
  obtain ⟨⟨s1, s2⟩, ⟨m1, m2⟩⟩ := h
  rw [f32_005] at s1
  rw [f32_01] at m1
  have hsc : |state.scale| ≤ 10 := by
    rw [abs_le]
    constructor <;> linarith
  have hmv : |state.moveSpeed| ≤ 10 := by
    rw [abs_le]
    constructor <;> linarith
  have step : ∀ (v c : ℚ) (b : Prop) [Decidable b], |v| ≤ 10 → 0 ≤ c → c ≤ 1 →
      |fadd v (if b then c else -c) - v| ≤ c + 1 / 1000000 - 1 / 100000000 := by
    intro v c b _ hv hc0 hc1
    apply fadd_step_bound v _ c hv _ hc1
    split_ifs
    · rw [abs_of_nonneg hc0]
    · rw [abs_neg, abs_of_nonneg hc0]
  have k1 := step state.moveSpeed (f32 (1 / 10)) (e.delta > 0) hmv
    (by rw [f32_01]; norm_num) (by rw [f32_01]; norm_num)
  have k2 := step state.scale (f32 (1 / 100)) (e.delta > 0) hsc
    (by rw [f32_001]; norm_num) (by rw [f32_001]; norm_num)
  have k3 := step state.scale (f32 (5 / 100)) (e.delta > 0) hsc
    (by rw [f32_005]; norm_num) (by rw [f32_005]; norm_num)
  have v1 : f32 (1 / 10) ≤ 1 / 10 + 1 / 100000000 := by rw [f32_01]; norm_num
  have v2 : f32 (1 / 100) ≤ 1 / 100 + 1 / 100000000 := by rw [f32_001]; norm_num
  have v3 : f32 (5 / 100) ≤ 5 / 100 + 1 / 100000000 := by rw [f32_005]; norm_num
  rw [wheelStep_scale, wheelStep_moveSpeed]
  by_cases hs : e.shiftPressed = true
  · rw [if_pos hs, if_pos hs, sub_self, abs_zero]
    exact ⟨by norm_num, fun _ => by norm_num, by linarith⟩
  rw [if_neg hs, if_neg hs, sub_self, abs_zero]
  by_cases hc : e.ctrlPressed = true
  · rw [if_pos hc]
    exact ⟨by linarith, fun _ => by linarith, by norm_num⟩
  rw [if_neg hc]
  by_cases ha : e.altPressed = true
  · rw [if_pos ha, sub_self, abs_zero]
    exact ⟨by norm_num, fun _ => by norm_num, by norm_num⟩
  · rw [if_neg ha]
    exact ⟨by linarith, fun h => absurd h hc, by norm_num⟩

/-- C8, as stated, fails: one plain wheel notch with negative delta from the initial scale
1.0 stores the scale `0.95f = 15938355/16777216` before and after clamping, a change of
`838861/16777216`, which is more than 0.05. -/
theorem scale_step_exceeds :
    newAppState.scale = 1 ∧
    (wheelStep newAppState wheelDown).scale = 15938355 / 16777216 ∧
    (wheelRun refLibm newAppState [wheelDown]).scale = 15938355 / 16777216 ∧
    ¬ (|(wheelStep newAppState wheelDown).scale - newAppState.scale| ≤ 5 / 100) := by
  decide!

/-- C8, amended: from scale 1.0 and move speed 1.0, after every run of wheel messages with
any modifier combination the scale lies in `[0.05, 10]` and the move speed in `[0.1, 5]`;
before clamping a single further message changes the scale by at most `0.05 + 10^-6`
(`0.01 + 10^-6` with Ctrl) and the move speed by at most `0.1 + 10^-6`, the excess being the
rounding of the literals and of the single-precision addition. -/
theorem wheel_ranges (M : Libm) (state : AppState) (es : List WheelEvent) (e : WheelEvent)
    (hscale : state.scale = 1) (hspeed : state.moveSpeed = 1) :
    (5 / 100 ≤ (wheelRun M state es).scale ∧ (wheelRun M state es).scale ≤ 10) ∧
    (1 / 10 ≤ (wheelRun M state es).moveSpeed ∧ (wheelRun M state es).moveSpeed ≤ 5) ∧
    |(wheelStep (wheelRun M state es) e).scale - (wheelRun M state es).scale| ≤
      5 / 100 + 1 / 1000000 ∧
    (e.ctrlPressed = true →
      |(wheelStep (wheelRun M state es) e).scale - (wheelRun M state es).scale| ≤
        1 / 100 + 1 / 1000000) ∧
    |(wheelStep (wheelRun M state es) e).moveSpeed - (wheelRun M state es).moveSpeed| ≤
      1 / 10 + 1 / 1000000 := by
  have h0 : (f32 (5 / 100) ≤ state.scale ∧ state.scale ≤ 10) ∧
      (f32 (1 / 10) ≤ state.moveSpeed ∧ state.moveSpeed ≤ 5) := by
    rw [hscale, hspeed, f32_005, f32_01]
    norm_num
  have hr := wheelRun_ranges M es state h0
  obtain ⟨b1, b2, b3⟩ := wheelStep_bounds (wheelRun M state es) e hr
  obtain ⟨⟨s1, s2⟩, ⟨m1, m2⟩⟩ := hr
  rw [f32_005] at s1
  rw [f32_01] at m1
  refine ⟨⟨by linarith, s2⟩, ⟨by linarith, m2⟩, b1, b2, b3⟩

/-- The amended C8 at a concrete input: the initial state, two plain notches and one
Shift notch, followed by one more plain notch. -/
theorem wheel_ranges_witness :
    (5 / 100 ≤ (wheelRun refLibm newAppState [wheelDown, wheelDown, wheelUpShift]).scale ∧
      (wheelRun refLibm newAppState [wheelDown, wheelDown, wheelUpShift]).scale ≤ 10) ∧
    (1 / 10 ≤ (wheelRun refLibm newAppState [wheelDown, wheelDown, wheelUpShift]).moveSpeed ∧
      (wheelRun refLibm newAppState [wheelDown, wheelDown, wheelUpShift]).moveSpeed ≤ 5) ∧
    |(wheelStep (wheelRun refLibm newAppState [wheelDown, wheelDown, wheelUpShift])
        wheelDown).scale -
      (wheelRun refLibm newAppState [wheelDown, wheelDown, wheelUpShift]).scale| ≤
      5 / 100 + 1 / 1000000 ∧
    (wheelDown.ctrlPressed = true →
      |(wheelStep (wheelRun refLibm newAppState [wheelDown, wheelDown, wheelUpShift])
          wheelDown).scale -
        (wheelRun refLibm newAppState [wheelDown, wheelDown, wheelUpShift]).scale| ≤
        1 / 100 + 1 / 1000000) ∧
    |(wheelStep (wheelRun refLibm newAppState [wheelDown, wheelDown, wheelUpShift])
        wheelDown).moveSpeed -
      (wheelRun refLibm newAppState [wheelDown, wheelDown, wheelUpShift]).moveSpeed| ≤
      1 / 10 + 1 / 1000000 :=
  wheel_ranges refLibm newAppState [wheelDown, wheelDown, wheelUpShift] wheelDown rfl rfl

/-! ## Render cache (C9) -/

/-- After any composite call on a loaded image the cache holds a bitmap whose key is the
current scale, rotation and canvas size. -/
theorem UpdateLayeredWindowContent_key (M : Libm) (state : AppState) (image : Bitmap)
    (himg : state.image = some image) (forceUpdate : Bool) :
    (UpdateLayeredWindowContent M state forceUpdate).hCachedBitmap.isSome = true ∧
    (UpdateLayeredWindowContent M state forceUpdate).cachedScale = state.scale ∧
    (UpdateLayeredWindowContent M state forceUpdate).cachedRotation = state.rotation ∧
    (UpdateLayeredWindowContent M state forceUpdate).cachedSize =
      CalculateRotatedSize M image.width image.height state.rotation state.scale ∧
    (UpdateLayeredWindowContent M state forceUpdate).scale = state.scale ∧
    (UpdateLayeredWindowContent M state forceUpdate).rotation = state.rotation ∧
    (UpdateLayeredWindowContent M state forceUpdate).image = some image := by
  unfold UpdateLayeredWindowContent
  simp only [himg]
  split_ifs with hhit
  · simp only [cacheHit, Bool.and_eq_true, decide_eq_true_eq] at hhit
    obtain ⟨⟨⟨⟨⟨hs, _⟩, h1⟩, h2⟩, h3⟩, h4⟩ := hhit
    refine ⟨hs, h1, h2, ?_, rfl, rfl, himg⟩
    cases hcs : state.cachedSize
    rw [hcs] at h3 h4
    simp only at h3 h4
    cases hrs : CalculateRotatedSize M image.width image.height state.rotation state.scale
    rw [hrs] at h3 h4
    simp only at h3 h4
    rw [h3, h4]
  · unfold CleanupCachedBitmap
    cases hc : state.hCachedBitmap <;> simp [himg]

/-- A composite call without `forceUpdate` on a state whose cache key matches leaves the
cached bitmap, its key and the GDI allocation record as they are. -/
theorem UpdateLayeredWindowContent_hit (M : Libm) (state : AppState) (image : Bitmap)
    (himg : state.image = some image) (hbuf : state.hCachedBitmap.isSome = true)
    (hscale : state.cachedScale = state.scale) (hrot : state.cachedRotation = state.rotation)
    (hsize : state.cachedSize =
      CalculateRotatedSize M image.width image.height state.rotation state.scale) :
    (UpdateLayeredWindowContent M state false).hCachedBitmap = state.hCachedBitmap ∧
    (UpdateLayeredWindowContent M state false).cachedScale = state.cachedScale ∧
    (UpdateLayeredWindowContent M state false).cachedRotation = state.cachedRotation ∧
    (UpdateLayeredWindowContent M state false).cachedSize = state.cachedSize ∧
    (UpdateLayeredWindowContent M state false).gdiNext = state.gdiNext ∧
    (UpdateLayeredWindowContent M state false).gdiDeleted = state.gdiDeleted := by
  have hhit : cacheHit state false
      (CalculateRotatedSize M image.width image.height state.rotation state.scale) = true := by
    simp [cacheHit, hbuf, hscale, hrot, ← hsize]
  unfold UpdateLayeredWindowContent
  simp only [himg, hhit, if_true]
  simp

/-- A forced composite call deletes the cached handle and stores the handle GDI hands out
next. -/
theorem UpdateLayeredWindowContent_forced (M : Libm) (state : AppState) (image : Bitmap)
    (himg : state.image = some image) :
    (UpdateLayeredWindowContent M state true).hCachedBitmap =
      some ⟨state.gdiNext, image.activeFrame⟩ ∧
    (UpdateLayeredWindowContent M state true).gdiNext = state.gdiNext + 1 ∧
    (UpdateLayeredWindowContent M state true).gdiDeleted =
      (match state.hCachedBitmap with
       | some old => old.handle :: state.gdiDeleted
       | none => state.gdiDeleted) := by
  unfold UpdateLayeredWindowContent
  simp only [himg, cacheHit, Bool.not_true, Bool.and_false, Bool.false_and, Bool.false_eq_true,
    if_false]
  unfold CleanupCachedBitmap
  cases hc : state.hCachedBitmap <;> simp

/-- C9: on a state with a loaded image, take one composite call (forced or not) and then,
with scale, rotation and image untouched in between (`mid` may differ from the first
result in every other field, the frame index included), a second call with
`forceUpdate = false`: the second call keeps the cached handle, the cache key, and neither
deletes nor allocates a GDI bitmap.  A call with `forceUpdate = true` always deletes the
cached handle and stores a newly allocated one. -/
theorem render_cache_hit (M : Libm) (state mid : AppState) (image : Bitmap) (first : Bool)
    (himg : state.image = some image)
    (hcache : mid.hCachedBitmap = (UpdateLayeredWindowContent M state first).hCachedBitmap)
    (hkey : mid.cachedScale = (UpdateLayeredWindowContent M state first).cachedScale ∧
      mid.cachedRotation = (UpdateLayeredWindowContent M state first).cachedRotation ∧
      mid.cachedSize = (UpdateLayeredWindowContent M state first).cachedSize)
    (hsame : mid.scale = state.scale ∧ mid.rotation = state.rotation ∧
      mid.image = some image) :
    ((UpdateLayeredWindowContent M mid false).hCachedBitmap = mid.hCachedBitmap ∧
      (UpdateLayeredWindowContent M mid false).cachedScale = mid.cachedScale ∧
      (UpdateLayeredWindowContent M mid false).cachedRotation = mid.cachedRotation ∧
      (UpdateLayeredWindowContent M mid false).cachedSize = mid.cachedSize ∧
      (UpdateLayeredWindowContent M mid false).gdiNext = mid.gdiNext ∧
      (UpdateLayeredWindowContent M mid false).gdiDeleted = mid.gdiDeleted) ∧
    ((UpdateLayeredWindowContent M state true).hCachedBitmap =
        some ⟨state.gdiNext, image.activeFrame⟩ ∧
      (UpdateLayeredWindowContent M state true).gdiNext = state.gdiNext + 1 ∧
      (UpdateLayeredWindowContent M state true).gdiDeleted =
        (match state.hCachedBitmap with
         | some old => old.handle :: state.gdiDeleted
         | none => state.gdiDeleted)) := by
  obtain ⟨k1, k2, k3, k4, _, _, _⟩ := UpdateLayeredWindowContent_key M state image himg first
  obtain ⟨c1, c2, c3⟩ := hkey
  obtain ⟨m1, m2, m3⟩ := hsame
  refine ⟨UpdateLayeredWindowContent_hit M mid image m3 ?_ ?_ ?_ ?_,
    UpdateLayeredWindowContent_forced M state image himg⟩
  · rw [hcache]; exact k1
  · rw [c1, k2, m1]
  · rw [c2, k3, m2]
  · rw [c3, k4, m1, m2]

/-- C9 at a concrete input: two consecutive unforced composite calls on `loadedState`. -/
theorem render_cache_hit_witness :
    ((UpdateLayeredWindowContent refLibm
        (UpdateLayeredWindowContent refLibm loadedState false) false).hCachedBitmap =
        (UpdateLayeredWindowContent refLibm loadedState false).hCachedBitmap ∧
      (UpdateLayeredWindowContent refLibm
        (UpdateLayeredWindowContent refLibm loadedState false) false).cachedScale =
        (UpdateLayeredWindowContent refLibm loadedState false).cachedScale ∧
      (UpdateLayeredWindowContent refLibm
        (UpdateLayeredWindowContent refLibm loadedState false) false).cachedRotation =
        (UpdateLayeredWindowContent refLibm loadedState false).cachedRotation ∧
      (UpdateLayeredWindowContent refLibm
        (UpdateLayeredWindowContent refLibm loadedState false) false).cachedSize =
        (UpdateLayeredWindowContent refLibm loadedState false).cachedSize ∧
      (UpdateLayeredWindowContent refLibm
        (UpdateLayeredWindowContent refLibm loadedState false) false).gdiNext =
        (UpdateLayeredWindowContent refLibm loadedState false).gdiNext ∧
      (UpdateLayeredWindowContent refLibm
        (UpdateLayeredWindowContent refLibm loadedState false) false).gdiDeleted =
        (UpdateLayeredWindowContent refLibm loadedState false).gdiDeleted) ∧
    ((UpdateLayeredWindowContent refLibm loadedState true).hCachedBitmap =
        some ⟨loadedState.gdiNext, stillImage.activeFrame⟩ ∧
      (UpdateLayeredWindowContent refLibm loadedState true).gdiNext = loadedState.gdiNext + 1 ∧
      (UpdateLayeredWindowContent refLibm loadedState true).gdiDeleted =
        (match loadedState.hCachedBitmap with
         | some old => old.handle :: loadedState.gdiDeleted
         | none => loadedState.gdiDeleted)) :=
  render_cache_hit refLibm loadedState (UpdateLayeredWindowContent refLibm loadedState false)
    stillImage false (by decide!) rfl ⟨rfl, rfl, rfl⟩ (by decide!)

end Overlay
